import Mathlib

/-!
Verification of the OS-Agent runtime against its specification.

Shallow embedding of the Python sources:
  * `agent/vm/shell.py`      — `PersistentShell._is_input_prompt`
  * `agent/vm/registry.py`   — `VMRegistry.acquire` / `VMRegistry.release`
  * `agent/vm/linux_vm.py`   — `post_notification` / `fetch_notifications`
  * `agent/chat/session.py`  — tool-call loop of `_handle_tool_calls_stream`
  * `src/chat.py`            — placeholder handling in `_handle_tool_calls_stream`
  * `agent/sessions/team.py` — `TeamChatSession.spawn_agent`, `chat_stream`
  * `agent/utils/memory.py`  — `get_memory` / `set_memory` / `edit_memory` /
                               `edit_protected_memory`
  * `agent/tools/memory.py`  — the `manage_memory` tool

Python strings are modelled as `List Char` (a Python `str` is a sequence of
Unicode code points).  Character-level helpers mirror the CPython behaviour
on the character sets that actually occur; deviations are noted in comments.
-/

set_option maxHeartbeats 1000000

namespace OSAgent

/-- Python text: a sequence of Unicode code points. -/
abbrev Text := List Char

/-- Whitespace characters recognised by Python's `str.strip`/`str.rstrip`
(ASCII fragment; the texts stripped in this development contain only these). -/
def isPySpace (c : Char) : Bool :=
  c = ' ' || c = '\t' || c = '\n' || c = '\r' || c = '\x0b' || c = '\x0c'

/-- Python `str.rstrip()`: drop trailing whitespace. -/
def rstrip (s : Text) : Text :=
  (s.reverse.dropWhile isPySpace).reverse

/-- Python `str.lower()` (ASCII case folding; the patterns compared against
are ASCII). -/
def pyLower (s : Text) : Text :=
  s.map Char.toLower

/-- Python `a.startswith(b)`: does `a` begin with `b`? -/
def startsWith : Text → Text → Bool
  | _, [] => true
  | [], _ :: _ => false
  | c :: cs, d :: ds => c = d && startsWith cs ds

/-- Python `b in a` substring test. -/
def hasSub (pat : Text) : Text → Bool
  | [] => pat.isEmpty
  | c :: cs => startsWith (c :: cs) pat || hasSub pat cs

/-- Python `a.endswith(b)`. -/
def endsWith (s pat : Text) : Bool :=
  startsWith s.reverse pat.reverse

/-! ### C6 — `PersistentShell._is_input_prompt` (agent/vm/shell.py) -/

/-- Direct transcription of `PersistentShell._is_input_prompt`:

```python
stripped = text.rstrip()
if not stripped: return False
s = stripped.lower()
if "(y/n)" in s or "[y/n]" in s or s.endswith("yes/no?"): return True
if s.endswith("?"): return True
if s.endswith(">"): return True
if "password:" in s and s.rstrip().endswith(":"): return True
if s.rstrip().endswith(":"):
    if "//" in s: return False
    return True
if s.rstrip().endswith(">") and "enter" in s: return True
return False
```
-/
def isInputPrompt (text : Text) : Bool :=
  let stripped := rstrip text
  if stripped.isEmpty then false
  else
    let s := pyLower stripped
    if hasSub "(y/n)".data s || hasSub "[y/n]".data s || endsWith s "yes/no?".data then
      true
    else if endsWith s "?".data then true
    else if endsWith s ">".data then true
    else if hasSub "password:".data s && endsWith (rstrip s) ":".data then true
    else if endsWith (rstrip s) ":".data then
      if hasSub "//".data s then false else true
    else if endsWith (rstrip s) ">".data && hasSub "enter".data s then true
    else false

/-- The prompt grammar exactly as the claim states it (after the same
trailing-whitespace trim and case fold the heuristic applies to a completed
line): ends with `(y/n)`, `[y/n]` or `yes/no?`; or ends with `?`; or ends
with `>` and contains `enter`; or ends with `:` and (contains `password` or
does not contain `//`). -/
def claimedPromptGrammar (text : Text) : Bool :=
  let s := pyLower (rstrip text)
  if s.isEmpty then false
  else
    endsWith s "(y/n)".data || endsWith s "[y/n]".data || endsWith s "yes/no?".data
      || endsWith s "?".data
      || (endsWith s ">".data && hasSub "enter".data s)
      || (endsWith s ":".data && (hasSub "password".data s || !hasSub "//".data s))

/-- The grammar the code actually implements, flattened: contains `(y/n)` or
`[y/n]`, or ends with `yes/no?`; or ends with `?`; or ends with `>`
(unconditionally); or ends with `:` and (contains `password:` or does not
contain `//`). -/
def actualPromptGrammar (text : Text) : Bool :=
  let s := pyLower (rstrip text)
  if s.isEmpty then false
  else
    hasSub "(y/n)".data s || hasSub "[y/n]".data s || endsWith s "yes/no?".data
      || endsWith s "?".data
      || endsWith s ">".data
      || (endsWith s ":".data && (hasSub "password:".data s || !hasSub "//".data s))

/-! ### C1 — `VMRegistry.acquire` / `VMRegistry.release` (agent/vm/registry.py)

The registry keeps `_vms : dict[key, LinuxVM]` and `_counts : dict[key, int]`
under one lock.  The claim concerns the history of `acquire`/`release` calls
for a single key, so the state is the (optional) entry for that key.
`LinuxVM.start` is idempotent and sets the running flag (attach / docker
start / docker run all end with `self._running = True`); `LinuxVM.stop` is
called by `release` only when the persist policy is off and clears the
flag. -/

/-- The per-key slice of `LinuxVM` state that the registry claim observes. -/
structure VMHandle where
  running : Bool
  persist : Bool
  deriving Repr, DecidableEq

/-- Model of `LinuxVM.start`: no-op when already running, otherwise ends with
`self._running = True` (attach, `docker start`, or `docker run`). -/
def vmStart (vm : VMHandle) : VMHandle :=
  if vm.running then vm else { vm with running := true }

/-- Model of `LinuxVM.stop`: no-op when not running, otherwise clears the flag
(after `docker stop` / `docker rm -f` per policy). -/
def vmStop (vm : VMHandle) : VMHandle :=
  if !vm.running then vm else { vm with running := false }

/-- Registry state for one `(username, session)` key: the `_vms` entry
paired with its `_counts` entry (the two dicts always hold the same keys). -/
abbrev RegEntry := Option (VMHandle × Nat)

/-- Transcription of `VMRegistry.acquire`: create the entry with refcount 0 if absent,
increment the refcount, then `vm.start()` outside the lock. -/
def registryAcquire (persist : Bool) (st : RegEntry) : RegEntry :=
  let (vm, c) :=
    match st with
    | none => ({ running := false, persist := persist }, 0)
    | some (vm, c) => (vm, c)
  some (vmStart vm, c + 1)

/-- Transcription of `VMRegistry.release`: no-op when the entry is absent; otherwise
decrement, clamp at zero, and when the count reaches zero stop and delete
the entry unless the persist policy is on.  (`Nat` subtraction realises the
`counts[key] = 0` clamp of the Python code.) -/
def registryRelease (st : RegEntry) : RegEntry :=
  match st with
  | none => none
  | some (vm, c) =>
    let c' := c - 1
    if c' = 0 then
      if vm.persist then some (vm, 0) else none
    else
      some (vm, c')

inductive RegOp where
  | acq
  | rel
  deriving Repr, DecidableEq

/-- Dispatch one registry call. -/
def registryStep (persist : Bool) (st : RegEntry) : RegOp → RegEntry
  | .acq => registryAcquire persist st
  | .rel => registryRelease st

/-- Run a sequence of `acquire`/`release` calls for one key from the empty
registry. -/
def runRegistry (persist : Bool) (ops : List RegOp) : RegEntry :=
  ops.foldl (registryStep persist) none

/-- The refcount the registry records for the key (0 when the entry was
deleted or never created). -/
def recordedCount : RegEntry → Nat
  | none => 0
  | some (_, c) => c

/-- Whether the sandbox for the key is running. -/
def sandboxRunning : RegEntry → Bool
  | none => false
  | some (vm, _) => vm.running

/-- Count step for unpaired acquisitions. -/
def pendStep (p : Nat) : RegOp → Nat
  | .acq => p + 1
  | .rel => p - 1

/-- The number of `acquire` calls not yet paired with a `release`
(releases never pair across zero: an unmatched `release` is dropped). -/
def pendingAcquires (ops : List RegOp) : Nat :=
  ops.foldl pendStep 0

/-- The property C1 asserts for a persist policy and a call history. -/
def claimC1Statement (persist : Bool) (ops : List RegOp) : Prop :=
  recordedCount (runRegistry persist ops) = pendingAcquires ops ∧
    (sandboxRunning (runRegistry persist ops) = true ↔
      0 < pendingAcquires ops ∨ persist = true)

instance (persist : Bool) (ops : List RegOp) :
    Decidable (claimC1Statement persist ops) := by
  unfold claimC1Statement
  infer_instance

/-! ### C2 — tool loop of `ChatSession._handle_tool_calls_stream`
(agent/chat/session.py)

One turn (`_generate_stream`) issues one initial `ask` and then runs

```python
max_depth = self._config.max_tool_call_depth
while depth < max_depth and response.message.tool_calls:
    call = response.message.tool_calls.pop(0)
    async for nxt in self._process_tool_call(call, messages, conversation):
        response = nxt
        yield nxt
    depth += 1
```

For a supported tool, `_process_tool_call` issues a speculative follow-up
`ask` (raced against the tool) and, in both race outcomes, one further
`ask` whose reply becomes the next `response`; for an unsupported tool it
only appends a synthetic message and yields nothing, so `response` keeps
its remaining (popped) tool calls.  Only the *number* of issued chat
requests and the depth are modelled; race outcome and message content do
not affect either (both race branches issue exactly the two requests). -/

/-- Default cap on nested tool calls per turn (`MAX_TOOL_CALL_DEPTH`). -/
def MAX_TOOL_CALL_DEPTH : Nat := 15

/-- One tool call as the loop sees it: is its name registered in
`self._tool_funcs`? -/
structure ToolCallItem where
  known : Bool
  deriving Repr, DecidableEq

/-- An LLM response, reduced to its `tool_calls` list. -/
structure LLMResponse where
  calls : List ToolCallItem
  deriving Repr, DecidableEq

/-- The tool loop.  `fuel = max_depth - depth` is the loop variant; the
oracle lists the responses returned by the successive non-speculative
`ask` calls inside the loop.  Returns
`(chat requests issued inside the loop, iterations executed)`. -/
def toolLoop : Nat → LLMResponse → List LLMResponse → Nat × Nat
  | 0, _, _ => (0, 0)
  | _ + 1, ⟨[]⟩, _ => (0, 0)
  | fuel + 1, ⟨call :: rest⟩, oracle =>
    if call.known then
      match oracle with
      | [] => (2 + (toolLoop fuel ⟨[]⟩ []).1, 1 + (toolLoop fuel ⟨[]⟩ []).2)
      | nxt :: oracle' =>
        (2 + (toolLoop fuel nxt oracle').1, 1 + (toolLoop fuel nxt oracle').2)
    else
      ((toolLoop fuel ⟨rest⟩ oracle).1, 1 + (toolLoop fuel ⟨rest⟩ oracle).2)

/-- One turn of `_generate_stream`: the initial `ask` plus the tool loop
started at depth 0.  Returns `(chat requests issued, depth reached)`. -/
def turnRequests (first : LLMResponse) (oracle : List LLMResponse) : Nat × Nat :=
  (1 + (toolLoop MAX_TOOL_CALL_DEPTH first oracle).1,
    (toolLoop MAX_TOOL_CALL_DEPTH first oracle).2)

/-! ### C8 / C9 — `TeamChatSession` helper fabric (agent/sessions/team.py) -/

/-- Default helper cap (`MAX_MINI_AGENTS`). -/
def MAX_MINI_AGENTS : Nat := 4

/-- Transcription of `TeamChatSession.spawn_agent`:

```python
if name in self._agents:
    return f"Agent {name} already exists"
if len(self._agents) >= self._config.max_mini_agents:
    return "Agent limit reached"
agent = _MiniAgent(self, name, details, context)
await agent.start()
self._agents[name] = agent
return f"Spawned {name}"
```

The helper map is modelled by its (insertion-ordered) key list. -/
def spawnAgent (maxAgents : Nat) (agents : List String) (name : String) :
    String × List String :=
  if name ∈ agents then ("Agent " ++ name ++ " already exists", agents)
  else if maxAgents ≤ agents.length then ("Agent limit reached", agents)
  else ("Spawned " ++ name, agents ++ [name])

/-- A chat message as the session appends it to its log. -/
structure ChatMsg where
  role : String
  name : String
  content : String
  deriving Repr, DecidableEq

/-- Team-session state visible to the helper-fabric claims: the registered
helpers, the parent's pending helper-reply queue and the master log. -/
structure TeamState where
  agents : List String
  toMaster : List (String × String)
  masterLog : List ChatMsg
  deriving Repr, DecidableEq

/-- Transcription of `TeamChatSession._deliver_agent_messages`: drain `_to_master` into the
master log as tool-role messages named by helper. -/
def deliverAgentMessages (t : TeamState) : TeamState :=
  { t with
    masterLog := t.masterLog ++ t.toMaster.map (fun p => ChatMsg.mk "tool" p.1 p.2),
    toMaster := [] }

/-- Transcription of `TeamChatSession._destroy_agents`: stop every helper and remove it from
the map. -/
def destroyAgents (t : TeamState) : TeamState :=
  { t with agents := [] }

/-- Transcription of `TeamChatSession.__aexit__`: unset the global team, destroy all helpers,
close the master session. -/
def teamExit (t : TeamState) : TeamState :=
  destroyAgents t

/-- One completed `TeamChatSession.chat_stream` turn:

```python
await self._deliver_agent_messages()
async for part in self.master.chat_stream(prompt, extra=extra):
    yield part
await self._deliver_agent_messages()
await self._destroy_agents()
```

The master turn is abstracted to appending the user prompt and the final
assistant reply and performing the `spawn_agent` tool calls the LLM issued
during the turn (`spawns`). -/
def chatStreamTurn (maxAgents : Nat) (t : TeamState) (prompt : String)
    (spawns : List String) (reply : String) : TeamState :=
  let t1 := deliverAgentMessages t
  let t2 :=
    { t1 with
      masterLog := t1.masterLog ++ [ChatMsg.mk "user" "" prompt],
      agents := spawns.foldl (fun ags n => (spawnAgent maxAgents ags n).2) t1.agents }
  let t3 := { t2 with masterLog := t2.masterLog ++ [ChatMsg.mk "assistant" "" reply] }
  let t4 := deliverAgentMessages t3
  destroyAgents t4

/-! ### C7 / C10 — notification queue (agent/vm/linux_vm.py) -/

/-- A UTC wall-clock instant at microsecond precision
(`datetime.datetime.utcnow()`). -/
structure UtcTime where
  year : Nat
  month : Nat
  day : Nat
  hour : Nat
  minute : Nat
  second : Nat
  microsecond : Nat
  deriving Repr, DecidableEq

/-- Zero-padded decimal rendering of width `w` (strftime field). -/
def padNum (w n : Nat) : Text :=
  let ds := Nat.toDigits 10 n
  List.replicate (w - ds.length) '0' ++ ds

/-- Format `datetime.datetime.utcnow().strftime("%Y%m%d%H%M%S%f")`. -/
def strftimeTs (t : UtcTime) : Text :=
  padNum 4 t.year ++ padNum 2 t.month ++ padNum 2 t.day ++ padNum 2 t.hour
    ++ padNum 2 t.minute ++ padNum 2 t.second ++ padNum 6 t.microsecond

/-- The notification filename `f"{ts}.txt"`. -/
def notificationFileName (t : UtcTime) : Text :=
  strftimeTs t ++ ".txt".data

/-- A directory: filenames (unique) with file contents.  Listing order is
immaterial — consumers sort. -/
abbrev Dir := List (Text × Text)

/-- Model of `path.write_text(message)`: create the file or overwrite an existing
file of the same name. -/
def writeFile : Dir → Text → Text → Dir
  | [], name, content => [(name, content)]
  | (n, c) :: rest, name, content =>
    if n = name then (name, content) :: rest else (n, c) :: writeFile rest name content

/-- Transcription of `LinuxVM.post_notification(message)`. -/
def postNotification (t : UtcTime) (message : Text) (d : Dir) : Dir :=
  writeFile d (notificationFileName t) message

/-- Code-point lexicographic order on text (Python string `<` used by
`sorted`). -/
def textLe : Text → Text → Bool
  | [], _ => true
  | _ :: _, [] => false
  | a :: as, b :: bs => if a = b then textLe as bs else decide (a < b)

def insertSortedFile (x : Text × Text) : List (Text × Text) → List (Text × Text)
  | [] => [x]
  | y :: ys => if textLe x.1 y.1 then x :: y :: ys else y :: insertSortedFile x ys

/-- Sort by filename, as `sorted(...)` on paths does. -/
def sortByName (l : List (Text × Text)) : List (Text × Text) :=
  l.foldr insertSortedFile []

/-- Match of the `*.txt` glob. -/
def isTxtFile (name : Text) : Bool :=
  endsWith name ".txt".data

/-- Transcription of `LinuxVM.fetch_notifications`: read every `*.txt` file in lexicographic
filename order, unlink each after reading, return the contents.  Result:
the drained messages and the directory afterwards (reads and unlinks are
assumed to succeed, as in the claims). -/
def fetchNotifications (d : Dir) : List Text × Dir :=
  ((sortByName (d.filter fun f => isTxtFile f.1)).map Prod.snd,
    d.filter fun f => !isTxtFile f.1)

/-! ### C3 — placeholder bookkeeping in `ChatSession._handle_tool_calls_stream`
(src/chat.py)

For each supported tool call the loop appends a placeholder tool message,
races the tool against a speculative follow-up `ask`, and in both outcomes
removes the placeholder (reverse scan for the last tool message whose
content equals `TOOL_PLACEHOLDER_CONTENT`) before appending the real tool
result.  The model records the message log at every scheduling point (an
`await` or a `yield`, the only points at which another task can observe the
log) together with whether that point lies inside the race window — between
launching the tool call and appending its real result — plus the log at the
moment the real tool result is appended. -/

def TOOL_PLACEHOLDER_CONTENT : String := "Awaiting tool response..."

/-- Is this message the in-flight placeholder (`role == "tool"` and content
equal to the configured placeholder text)? -/
def isPlaceholderMsg (m : ChatMsg) : Bool :=
  m.role = "tool" && m.content = TOOL_PLACEHOLDER_CONTENT

/-- Number of placeholder messages in the log. -/
def phCount (log : List ChatMsg) : Nat :=
  (log.filter isPlaceholderMsg).length

/-- Forward scan removing the first placeholder (helper for the reverse
scan of `_remove_tool_placeholder`). -/
def removeFirstPh : List ChatMsg → List ChatMsg
  | [] => []
  | m :: rest => if isPlaceholderMsg m then rest else m :: removeFirstPh rest

/-- Transcription of `ChatSession._remove_tool_placeholder`: delete the **last** tool message
whose content is the placeholder text, if any. -/
def removeToolPlaceholder (log : List ChatMsg) : List ChatMsg :=
  (removeFirstPh log.reverse).reverse

/-- The display name used for tool messages
(`"junior" if call.function.name == "send_to_junior" else call.function.name`). -/
def displayName (fname : String) : String :=
  if fname = "send_to_junior" then "junior" else fname

/-- One processed tool call of a turn, with the data that determines the
log mutations: the tool name, whether a handler is registered, which racer
finished first, the tool's result text and the two possible assistant
reply texts. -/
structure ToolCallScript where
  fname : String
  known : Bool
  toolWins : Bool
  toolResult : String
  followContent : String
  nxtContent : String
  deriving Repr, DecidableEq

def placeholderMsgFor (s : ToolCallScript) : ChatMsg :=
  ⟨"tool", displayName s.fname, TOOL_PLACEHOLDER_CONTENT⟩

def toolResultMsg (s : ToolCallScript) : ChatMsg :=
  ⟨"tool", displayName s.fname, s.toolResult⟩

/-- Process one tool call, starting from `log`.  Returns the observable
snapshots `(log, inside-race-window)`, the logs at the instant a real tool
result is appended, and the final log. -/
def runToolCall (log : List ChatMsg) (s : ToolCallScript) :
    List (List ChatMsg × Bool) × List (List ChatMsg) × List ChatMsg :=
  if s.known then
    let logPh := log ++ [placeholderMsgFor s]
    if s.toolWins then
      -- placeholder appended, follow-up launched; awaits on the lock and the
      -- race; follow-up cancelled; placeholder removed and real result
      -- appended in one synchronous block; fresh ask; assistant appended.
      let logR := removeToolPlaceholder logPh
      let log2 := logR ++ [toolResultMsg s]
      let log3 := log2 ++ [ChatMsg.mk "assistant" "" s.nxtContent]
      ([(logPh, true), (log2, false), (log3, false)], [logR], log3)
    else
      -- follow-up wins: its assistant reply is appended and yielded while
      -- the tool still runs; then the tool is awaited, the placeholder
      -- removed, the real result appended; fresh ask; assistant appended.
      let logF := logPh ++ [ChatMsg.mk "assistant" "" s.followContent]
      let logR := removeToolPlaceholder logF
      let log2 := logR ++ [toolResultMsg s]
      let log3 := log2 ++ [ChatMsg.mk "assistant" "" s.nxtContent]
      ([(logPh, true), (logF, true), (log2, false), (log3, false)], [logR], log3)
  else
    -- unsupported tool: synthetic result appended synchronously, no race.
    let log1 := log ++ [ChatMsg.mk "tool" (displayName s.fname) ("Unsupported tool: " ++ s.fname)]
    ([(log1, false)], [], log1)

/-- Process the sequence of tool calls of one turn. -/
def runTurnCalls (log : List ChatMsg) :
    List ToolCallScript →
      List (List ChatMsg × Bool) × List (List ChatMsg) × List ChatMsg
  | [] => ([], [], log)
  | s :: rest =>
    ((runToolCall log s).1 ++ (runTurnCalls (runToolCall log s).2.2 rest).1,
      (runToolCall log s).2.1 ++ (runTurnCalls (runToolCall log s).2.2 rest).2.1,
      (runTurnCalls (runToolCall log s).2.2 rest).2.2)

/-! ### C4 / C5 — user-memory JSON (agent/utils/memory.py, agent/tools/memory.py)

The memory blob is a Python string holding JSON.  `edit_memory` /
`edit_protected_memory` parse it with `json.loads` (decode errors fall back
to `{}`), mutate the dict, and store
`json.dumps(data, ensure_ascii=False, indent=2)` through `set_memory`,
which strips the text and truncates it to `MEMORY_LIMIT` characters.

JSON values are embedded as `Json` below.  Numbers keep their literal
numeral text (CPython would decode them to int/float; the claims never
inspect numeric values, only reserialize them).  Object member lists model
Python dicts: keys are unique, insertion-ordered; `json.loads` resolves a
duplicate key by overwriting in place. -/

inductive Json where
  | null
  | bool (b : Bool)
  | num (t : Text)
  | str (s : Text)
  | arr (elems : List Json)
  | obj (members : List (Text × Json))
  deriving Repr

instance : Inhabited Json :=
  ⟨Json.null⟩

/-- Python dict assignment `d[k] = v`: overwrite in place or append. -/
def setKey : List (Text × Json) → Text → Json → List (Text × Json)
  | [], k, v => [(k, v)]
  | (k', v') :: rest, k, v =>
    if k' = k then (k, v) :: rest else (k', v') :: setKey rest k v

/-- Python `d.pop(k, None)`: drop the entry for `k` if present. -/
def eraseKey : List (Text × Json) → Text → List (Text × Json)
  | [], _ => []
  | (k', v') :: rest, k => if k' = k then rest else (k', v') :: eraseKey rest k

/-- Python `d.get(k)`. -/
def lookupKey : List (Text × Json) → Text → Option Json
  | [], _ => none
  | (k', v') :: rest, k => if k' = k then some v' else lookupKey rest k

/-- Lowercase hexadecimal digit (for `\u00xx` escapes). -/
def hexDigitChar (n : Nat) : Char :=
  if n < 10 then Char.ofNat ('0'.toNat + n) else Char.ofNat ('a'.toNat + n - 10)

/-- Escape one character as `json.dumps` does (`ensure_ascii=False`):
`"` and `\` and the C0 control characters are escaped (with the usual
shorthands), everything else is emitted literally. -/
def escapeChar (c : Char) : Text :=
  if c = '"' then ['\\', '"']
  else if c = '\\' then ['\\', '\\']
  else if c = '\n' then ['\\', 'n']
  else if c = '\r' then ['\\', 'r']
  else if c = '\t' then ['\\', 't']
  else if c = '\x08' then ['\\', 'b']
  else if c = '\x0c' then ['\\', 'f']
  else if c.toNat < 0x20 then
    ['\\', 'u', '0', '0', hexDigitChar (c.toNat / 16), hexDigitChar (c.toNat % 16)]
  else [c]

def escapeString (s : Text) : Text :=
  s.foldr (fun c acc => escapeChar c ++ acc) []

/-- Serialize a JSON string literal: `'"' + escaped + '"'`. -/
def dumpString (s : Text) : Text :=
  '"' :: (escapeString s ++ ['"'])

/-- Indentation: `n` spaces. -/
def indentPad (n : Nat) : Text :=
  List.replicate n ' '

mutual

/-- Serialization of `json.dumps(·, ensure_ascii=False, indent=2)`.
`ind` is the indentation (in spaces) at which this value's container
renders its items; containers put each item on its own line indented by
`ind + 2` and the closing bracket at `ind`.  Item separator is `",\n"`,
key separator `": "`; empty containers render as `[]` / `{}` on one
line. -/
def dumpsVal (ind : Nat) : Json → Text
  | .null => "null".data
  | .bool true => "true".data
  | .bool false => "false".data
  | .num t => t
  | .str s => dumpString s
  | .arr [] => "[]".data
  | .arr (x :: xs) =>
    '[' :: '\n' :: (dumpsItems (ind + 2) x xs ++ '\n' :: (indentPad ind ++ [']']))
  | .obj [] => ['\x7b', '\x7d']
  | .obj ((k, v) :: ms) =>
    '\x7b' :: '\n' :: (dumpsMembers (ind + 2) k v ms ++ '\n' :: (indentPad ind ++ ['\x7d']))
termination_by j => sizeOf j
decreasing_by all_goals (simp_wf <;> omega)

/-- Render array items, each at indentation `ind`, separated by `",\n"`. -/
def dumpsItems (ind : Nat) (x : Json) : List Json → Text
  | [] => indentPad ind ++ dumpsVal ind x
  | y :: ys => indentPad ind ++ dumpsVal ind x ++ ',' :: '\n' :: dumpsItems ind y ys
termination_by xs => 1 + sizeOf x + sizeOf xs
decreasing_by all_goals (simp_wf <;> omega)

/-- Render object members, each at indentation `ind`, separated by `",\n"`. -/
def dumpsMembers (ind : Nat) (k : Text) (v : Json) : List (Text × Json) → Text
  | [] => indentPad ind ++ (dumpString k ++ ':' :: ' ' :: dumpsVal ind v)
  | (k', v') :: ns =>
    indentPad ind ++ (dumpString k ++ ':' :: ' ' :: dumpsVal ind v)
      ++ ',' :: '\n' :: dumpsMembers ind k' v' ns
termination_by ns => 1 + sizeOf v + sizeOf ns
decreasing_by all_goals (simp_wf <;> omega)

end

/-- Top-level `json.dumps(data, ensure_ascii=False, indent=2)`. -/
def dumps (j : Json) : Text :=
  dumpsVal 0 j

/-- Characters that may continue a numeral token. -/
def isNumContChar (c : Char) : Bool :=
  c.isDigit || c = '.' || c = 'e' || c = 'E' || c = '+' || c = '-'

/-- A stored numeral token is well formed when it is nonempty, starts like
a JSON number and consists of numeral characters (every token produced by
parsing a valid JSON number satisfies this). -/
def isWfNumToken (t : Text) : Bool :=
  match t with
  | [] => false
  | c :: _ => (c.isDigit || c = '-') && t.all isNumContChar

def distinctKeysB : List Text → Bool
  | [] => true
  | k :: ks => !ks.contains k && distinctKeysB ks

mutual

/-- Well-formedness of an embedded JSON value: numeral tokens are numeral
text and object keys are distinct (both hold for every value produced by
parsing). -/
def wfJson : Json → Bool
  | .null => true
  | .bool _ => true
  | .num t => isWfNumToken t
  | .str _ => true
  | .arr xs => wfList xs
  | .obj ms => distinctKeysB (ms.map Prod.fst) && wfMembers ms
termination_by j => sizeOf j
decreasing_by all_goals (simp_wf <;> omega)

/-- Well-formedness of a list of array elements. -/
def wfList : List Json → Bool
  | [] => true
  | x :: xs => wfJson x && wfList xs
termination_by xs => sizeOf xs
decreasing_by all_goals (simp_wf <;> omega)

/-- Well-formedness of a list of object members. -/
def wfMembers : List (Text × Json) → Bool
  | [] => true
  | (_, v) :: ms => wfJson v && wfMembers ms
termination_by ms => sizeOf ms
decreasing_by all_goals (simp_wf <;> omega)

end

/-! #### Parser (`json.loads`, strict mode)

`json.loads` skips the whitespace characters ``' ', '\t', '\n', '\r'``
between tokens, rejects raw control characters inside string literals and
unknown escape sequences, and resolves duplicate object keys by
overwriting.  Numbers are kept as their literal token text (maximal run of
numeral characters); `NaN`/`Infinity` literals and surrogate `\u` pairs
are not modelled — none occur in the texts these claims evaluate, which
are outputs of `dumps`. -/

def isJsonWs (c : Char) : Bool :=
  c = ' ' || c = '\t' || c = '\n' || c = '\r'

def skipWs (s : Text) : Text :=
  s.dropWhile isJsonWs

/-- Decode a single-character escape `\c`. -/
def escDecode (e : Char) : Option Char :=
  if e = '"' then some '"'
  else if e = '\\' then some '\\'
  else if e = '/' then some '/'
  else if e = 'b' then some '\x08'
  else if e = 'f' then some '\x0c'
  else if e = 'n' then some '\n'
  else if e = 'r' then some '\r'
  else if e = 't' then some '\t'
  else none

/-- Value of one hexadecimal digit. -/
def hexVal (c : Char) : Option Nat :=
  if '0' ≤ c ∧ c ≤ '9' then some (c.toNat - '0'.toNat)
  else if 'a' ≤ c ∧ c ≤ 'f' then some (c.toNat - 'a'.toNat + 10)
  else if 'A' ≤ c ∧ c ≤ 'F' then some (c.toNat - 'A'.toNat + 10)
  else none

/-- Parse the body of a string literal (after the opening quote), returning
the decoded text and the remaining input after the closing quote. -/
def parseStringBody : Text → Option (Text × Text)
  | [] => none
  | c :: rest =>
    if c = '"' then some ([], rest)
    else if c = '\\' then
      match rest with
      | [] => none
      | e :: rest' =>
        if e = 'u' then
          match rest' with
          | h1 :: h2 :: h3 :: h4 :: rest'' =>
            match hexVal h1, hexVal h2, hexVal h3, hexVal h4 with
            | some a, some b, some c2, some d =>
              let n := ((a * 16 + b) * 16 + c2) * 16 + d
              if n.isValidChar then
                (parseStringBody rest'').map (fun p => (Char.ofNat n :: p.1, p.2))
              else none
            | _, _, _, _ => none
          | _ => none
        else
          match escDecode e with
          | some d => (parseStringBody rest').map (fun p => (d :: p.1, p.2))
          | none => none
    else if c.toNat < 0x20 then none
    else (parseStringBody rest).map (fun p => (c :: p.1, p.2))

mutual

/-- Parse one JSON value.  The fuel bounds the container-nesting work; the
string, numeral and whitespace scanners are structural on the input. -/
def parseValue : Nat → Text → Option (Json × Text)
  | 0, _ => none
  | fuel + 1, s =>
    match skipWs s with
    | [] => none
    | c :: rest =>
      if c = '\x7b' then parseObjBody fuel rest
      else if c = '[' then parseArrBody fuel rest
      else if c = '"' then
        (parseStringBody rest).map (fun p => (Json.str p.1, p.2))
      else if c = 'n' then
        if startsWith rest "ull".data then some (Json.null, rest.drop 3) else none
      else if c = 't' then
        if startsWith rest "rue".data then some (Json.bool true, rest.drop 3) else none
      else if c = 'f' then
        if startsWith rest "alse".data then some (Json.bool false, rest.drop 4) else none
      else if c.isDigit || c = '-' then
        some (Json.num ((c :: rest).takeWhile isNumContChar),
          (c :: rest).dropWhile isNumContChar)
      else none

/-- Parse an object body (input starts after the `{`). -/
def parseObjBody : Nat → Text → Option (Json × Text)
  | 0, _ => none
  | fuel + 1, s =>
    match skipWs s with
    | [] => none
    | c :: rest =>
      if c = '\x7d' then some (Json.obj [], rest)
      else parseMembers fuel (c :: rest) []

/-- Parse the members of a nonempty object; a duplicate key overwrites the
earlier entry in place, as CPython's dict building does. -/
def parseMembers : Nat → Text → List (Text × Json) → Option (Json × Text)
  | 0, _, _ => none
  | fuel + 1, s, acc =>
    match skipWs s with
    | [] => none
    | c :: rest =>
      if c = '"' then
        match parseStringBody rest with
        | none => none
        | some (key, r1) =>
          match skipWs r1 with
          | [] => none
          | c2 :: r3 =>
            if c2 = ':' then
              match parseValue fuel r3 with
              | none => none
              | some (v, r4) =>
                match skipWs r4 with
                | [] => none
                | c3 :: r6 =>
                  if c3 = ',' then parseMembers fuel r6 (setKey acc key v)
                  else if c3 = '\x7d' then some (Json.obj (setKey acc key v), r6)
                  else none
            else none
      else none

/-- Parse an array body (input starts after the `[`). -/
def parseArrBody : Nat → Text → Option (Json × Text)
  | 0, _ => none
  | fuel + 1, s =>
    match skipWs s with
    | [] => none
    | c :: rest =>
      if c = ']' then some (Json.arr [], rest)
      else parseItems fuel (c :: rest) []

/-- Parse the items of a nonempty array. -/
def parseItems : Nat → Text → List Json → Option (Json × Text)
  | 0, _, _ => none
  | fuel + 1, s, acc =>
    match parseValue fuel s with
    | none => none
    | some (v, r) =>
      match skipWs r with
      | [] => none
      | c :: r3 =>
        if c = ',' then parseItems fuel r3 (acc ++ [v])
        else if c = ']' then some (Json.arr (acc ++ [v]), r3)
        else none

end

/-- Model of `json.loads`: parse a complete value with ample fuel; trailing
input (after whitespace) is a decode error. -/
def loads (s : Text) : Option Json :=
  match parseValue (s.length + 1) s with
  | some (j, rest) => if (skipWs rest).isEmpty then some j else none
  | none => none

/-! #### The memory store operations (agent/utils/memory.py)

The per-user store is the persisted memory string; the database plumbing
(`get_or_create_user`, `user.save`) is identity on that string. -/

/-- The limit `MEMORY_LIMIT` (default of `int(os.getenv("MEMORY_LIMIT", "8000"))`). -/
def MEMORY_LIMIT : Nat := 8000

/-- The initial memory JSON (`DEFAULT_MEMORY_TEMPLATE`). -/
def DEFAULT_MEMORY_TEMPLATE : Text :=
  ("\x7b\n  \"name\": \"\",\n  \"age\": \"\",\n  \"gender\": \"\",\n  \"protected_memory\": \x7b\x7d\n\x7d").data

/-- Python `str.strip()` (strip both ends). -/
def pyStrip (s : Text) : Text :=
  (rstrip s).dropWhile isPySpace

/-- Transcription of `get_memory`: return the stored memory, substituting the
default template when it is empty. -/
def get_memory (stored : Text) : Text :=
  if stored.isEmpty then DEFAULT_MEMORY_TEMPLATE else stored

/-- Transcription of `set_memory`: strip, then truncate to `MEMORY_LIMIT`
characters; returns the text that is persisted. -/
def set_memory (memory : Text) : Text :=
  let memory := pyStrip memory
  if MEMORY_LIMIT < memory.length then memory.take MEMORY_LIMIT else memory

/-- Apply `data.pop(field, None)` / `data[field] = value` for the
string-or-removal values `manage_memory` passes. -/
def applyFieldEdit (m : List (Text × Json)) (field : Text) (value : Option Text) :
    List (Text × Json) :=
  match value with
  | none => eraseKey m field
  | some v => setKey m field (Json.str v)

/-- Transcription of `edit_memory`: parse the current memory (decode errors
fall back to `{}`), set or remove the field, reserialize through
`set_memory`.  Returns `none` when the Python code would raise (the text
parses as JSON that is not an object, so `pop`/item assignment fails). -/
def edit_memory (stored : Text) (field : Text) (value : Option Text) : Option Text :=
  match loads (get_memory stored) with
  | some (Json.obj m) =>
    some (set_memory (dumps (Json.obj (applyFieldEdit m field value))))
  | none =>
    some (set_memory (dumps (Json.obj (applyFieldEdit [] field value))))
  | some _ => none

/-- Transcription of `edit_protected_memory`: like `edit_memory` but the
edit is applied inside the `protected_memory` sub-dict (reset to `{}` when
missing or not a dict), which is then stored back under the
`protected_memory` key. -/
def edit_protected_memory (stored : Text) (field : Text) (value : Option Text) :
    Option Text :=
  match loads (get_memory stored) with
  | some (Json.obj m) =>
    let prot :=
      match lookupKey m "protected_memory".data with
      | some (Json.obj p) => p
      | _ => []
    some (set_memory (dumps (Json.obj
      (setKey m "protected_memory".data (Json.obj (applyFieldEdit prot field value))))))
  | none =>
    some (set_memory (dumps (Json.obj
      [("protected_memory".data, Json.obj (applyFieldEdit [] field value))])))
  | some _ => none

/-- Transcription of the `manage_memory` tool (`create_memory_tool`): call
`edit_memory` for the session user; any exception is caught and reported as
an error string with the memory left unchanged.  Returns the reply text and
the stored memory afterwards. -/
def memory_tool (stored : Text) (field : Text) (value : Option Text) :
    String × Text :=
  match edit_memory stored field value with
  | some newMem => ("Memory updated successfully.", newMem)
  | none => ("Error updating memory.", stored)

/-! ## Proof auxiliaries (definitions used only in proofs) -/

/-- Invariant tying the per-key registry entry to the pending-acquire count
and to whether any acquire has occurred. -/
def regInv (persist : Bool) (st : RegEntry) (p : Nat) (acq : Bool) : Prop :=
  match st with
  | none => p = 0 ∧ (persist = true → acq = false)
  | some (vm, c) =>
    c = p ∧ vm.running = true ∧ vm.persist = persist ∧ acq = true ∧
      (persist = false → 1 ≤ c)

/-- Does the call history contain an acquire? -/
def hasAcq : List RegOp → Bool
  | [] => false
  | .acq :: _ => true
  | .rel :: rest => hasAcq rest

mutual

/-- Fuel sufficient for `parseValue` to parse the serialization of a value
(an overapproximation; the parser consumes one fuel per container level
and per container element). -/
def needFuel : Json → Nat
  | .null => 1
  | .bool _ => 1
  | .num _ => 1
  | .str _ => 1
  | .arr xs => 2 + needItemsFuel xs
  | .obj ms => 2 + needMembersFuel ms
termination_by j => sizeOf j
decreasing_by all_goals (simp_wf <;> omega)

/-- Fuel sufficient for `parseItems` on a list of array elements. -/
def needItemsFuel : List Json → Nat
  | [] => 0
  | x :: xs => 1 + needFuel x + needItemsFuel xs
termination_by xs => sizeOf xs
decreasing_by all_goals (simp_wf <;> omega)

/-- Fuel sufficient for `parseMembers` on a list of object members. -/
def needMembersFuel : List (Text × Json) → Nat
  | [] => 0
  | (_, v) :: ms => 1 + needFuel v + needMembersFuel ms
termination_by ms => sizeOf ms
decreasing_by all_goals (simp_wf <;> omega)

end

/-- Fold Python dict insertion over a member list (what `parseMembers`
accumulates). -/
def setKeyFold (acc : List (Text × Json)) (ms : List (Text × Json)) :
    List (Text × Json) :=
  ms.foldl (fun a kv => setKey a kv.1 kv.2) acc

/-- The text that follows the first rendered item of an array: either the
closing of the array or a separator and the remaining items. -/
def itemsSep (ind : Nat) (xs : List Json) (closeInd : Nat) (rest : Text) : Text :=
  match xs with
  | [] => '\n' :: (indentPad closeInd ++ ']' :: rest)
  | y :: ys =>
    ',' :: '\n' :: (indentPad ind ++ dumpsVal ind y ++ itemsSep ind ys closeInd rest)

/-- The text that follows the first rendered member of an object. -/
def membersSep (ind : Nat) (ms : List (Text × Json)) (closeInd : Nat) (rest : Text) :
    Text :=
  match ms with
  | [] => '\n' :: (indentPad closeInd ++ '\x7d' :: rest)
  | (k, v) :: ms2 =>
    ',' :: '\n' :: (indentPad ind ++ (dumpString k ++ ':' :: ' ' :: dumpsVal ind v)
      ++ membersSep ind ms2 closeInd rest)

/-- The `protected_memory` sub-dict `edit_protected_memory` starts from: the
stored entry when it is an object, `\x7b\x7d` otherwise. -/
def protSub (m : List (Text × Json)) : List (Text × Json) :=
  match lookupKey m ("protected_memory".data) with
  | some (Json.obj p) => p
  | _ => []

/-! ## Theorems -/

/-! ### C6 -/

lemma prompt_chain_eq (a1 a2 a3 b c d e f g : Bool) :
    (if a1 || a2 || a3 then true
     else if b then true
     else if c then true
     else if d && e then true
     else if e then (if f then false else true)
     else if c && g then true
     else false)
      = (a1 || a2 || a3 || b || c || (e && (d || !f))) := by
  revert a1 a2 a3 b c d e f g
  decide

lemma dropWhile_idem (p : Char → Bool) (l : Text) :
    List.dropWhile p (List.dropWhile p l) = List.dropWhile p l := by
  induction l with
  | nil => rfl
  | cons c cs ih =>
    by_cases h : p c
    · simpa [List.dropWhile_cons, h] using ih
    · simp [List.dropWhile_cons, h]

lemma rstrip_idem (s : Text) : rstrip (rstrip s) = rstrip s := by
  unfold rstrip
  rw [List.reverse_reverse, dropWhile_idem]

lemma charToNat_ofNat_valid (n : Nat) (h : n.isValidChar) :
    (Char.ofNat n).toNat = n := by
  unfold Char.ofNat
  rw [dif_pos h]
  simp [Char.ofNatAux, Char.toNat, UInt32.toNat]

lemma isPySpace_eq_false_of_bounds (c : Char) (h1 : 65 ≤ c.toNat)
    (h2 : c.toNat ≤ 122) : isPySpace c = false := by
  simp only [isPySpace, Bool.or_eq_false_iff, decide_eq_false_iff_not]
  refine ⟨⟨⟨⟨⟨?_, ?_⟩, ?_⟩, ?_⟩, ?_⟩, ?_⟩ <;>
    · rintro rfl
      revert h1 h2
      decide

lemma isPySpace_toLower (c : Char) : isPySpace c.toLower = isPySpace c := by
  have hdef : c.toLower
      = if c.toNat ≥ 65 ∧ c.toNat ≤ 90 then Char.ofNat (c.toNat + 32) else c := rfl
  rw [hdef]
  split
  · rename_i h
    have hv : (c.toNat + 32).isValidChar := Or.inl (by omega)
    rw [isPySpace_eq_false_of_bounds c (by omega) (by omega)]
    apply isPySpace_eq_false_of_bounds
    · rw [charToNat_ofNat_valid _ hv]; omega
    · rw [charToNat_ofNat_valid _ hv]; omega
  · rfl

lemma dropWhile_map_toLower (p : Char → Bool) (l : Text)
    (hp : ∀ c, p (Char.toLower c) = p c) :
    List.dropWhile p (l.map Char.toLower) =
      (List.dropWhile p l).map Char.toLower := by
  induction l with
  | nil => rfl
  | cons c cs ih =>
    by_cases h : p c
    · simp [List.dropWhile_cons, h, hp, ih]
    · simp [List.dropWhile_cons, h, hp]

lemma rstrip_pyLower (u : Text) : rstrip (pyLower u) = pyLower (rstrip u) := by
  unfold rstrip pyLower
  rw [← List.map_reverse, dropWhile_map_toLower _ _ isPySpace_toLower,
    List.map_reverse]

lemma rstrip_pyLower_rstrip (t : Text) :
    rstrip (pyLower (rstrip t)) = pyLower (rstrip t) := by
  rw [rstrip_pyLower, rstrip_idem]

lemma pyLower_isEmpty (u : Text) : (pyLower u).isEmpty = u.isEmpty := by
  cases u <;> rfl

/-- C6 (amended): the heuristic classifies a completed line as an input
prompt iff, after trimming trailing whitespace and lowercasing, the line is
nonempty and **contains** `(y/n)` or `[y/n]`, or ends with `yes/no?`; or
ends with `?`; or ends with `>` (whether or not it mentions `enter`); or
ends with `:` and (contains `password:` or does not contain `//`). -/
theorem prompt_heuristic_grammar (text : Text) :
    isInputPrompt text = actualPromptGrammar text := by
  simp only [isInputPrompt, actualPromptGrammar]
  rw [pyLower_isEmpty]
  by_cases hemp : (rstrip text).isEmpty
  · simp [hemp]
  · simp only [hemp, if_false, Bool.false_eq_true]
    rw [rstrip_pyLower_rstrip]
    exact prompt_chain_eq _ _ _ _ _ _ _ _ _

/-- C6 counterexample: a line ending in a bare `>` with no mention of
`enter` (the line `c>`) is classified as an input prompt by the code but
not by the claimed grammar. -/
theorem prompt_grammar_counterexample :
    isInputPrompt "c>".data = true ∧ claimedPromptGrammar "c>".data = false := by
  decide

/-! ### C1 -/

lemma regInv_acquire (persist : Bool) (st : RegEntry) (p : Nat) (acq : Bool)
    (h : regInv persist st p acq) :
    regInv persist (registryAcquire persist st) (p + 1) true := by
  cases st with
  | none =>
    obtain ⟨hp, -⟩ := h
    subst hp
    simp [regInv, registryAcquire, vmStart]
  | some e =>
    obtain ⟨vm, c⟩ := e
    obtain ⟨hc, hrun, hper, -, -⟩ := h
    subst hc
    simp [regInv, registryAcquire, vmStart, hrun, hper]

lemma regInv_release (persist : Bool) (st : RegEntry) (p : Nat) (acq : Bool)
    (h : regInv persist st p acq) :
    regInv persist (registryRelease st) (p - 1) acq := by
  cases st with
  | none =>
    obtain ⟨hp, hacq⟩ := h
    subst hp
    exact ⟨rfl, hacq⟩
  | some e =>
    obtain ⟨vm, c⟩ := e
    obtain ⟨hc, hrun, hper, hacq, hpos⟩ := h
    subst hc
    simp only [registryRelease]
    by_cases h0 : c - 1 = 0
    · rw [if_pos h0]
      by_cases hpers : vm.persist = true
      · rw [if_pos hpers]
        rw [hper] at hpers
        exact ⟨h0.symm, hrun, hper, hacq, fun hfalse => by rw [hfalse] at hpers; cases hpers⟩
      · rw [if_neg hpers]
        exact ⟨h0, fun htrue => absurd (hper.trans htrue) hpers⟩
    · rw [if_neg h0]
      exact ⟨rfl, hrun, hper, hacq, fun _ => by omega⟩

lemma regInv_run (persist : Bool) (ops : List RegOp) :
    ∀ (st : RegEntry) (p : Nat) (acq : Bool), regInv persist st p acq →
      regInv persist (ops.foldl (registryStep persist) st) (ops.foldl pendStep p)
        (acq || hasAcq ops) := by
  induction ops with
  | nil =>
    intro st p acq h
    simpa [hasAcq] using h
  | cons op rest ih =>
    intro st p acq h
    cases op with
    | acq =>
      have := ih (registryAcquire persist st) (p + 1) true (regInv_acquire persist st p acq h)
      simpa [registryStep, pendStep, hasAcq] using this
    | rel =>
      have := ih (registryRelease st) (p - 1) acq (regInv_release persist st p acq h)
      simpa [registryStep, pendStep, hasAcq] using this

lemma hasAcq_iff_mem (ops : List RegOp) : hasAcq ops = true ↔ RegOp.acq ∈ ops := by
  induction ops with
  | nil => simp [hasAcq]
  | cons op rest ih =>
    cases op with
    | acq => simp [hasAcq]
    | rel =>
      simp only [hasAcq, ih, List.mem_cons]
      constructor
      · exact Or.inr
      · rintro (h | h)
        · cases h
        · exact h

/-- C1 (amended): after any sequence of `acquire`/`release` calls for one
key, the registry's recorded refcount equals the number of unpaired
acquires, and the sandbox for the key is running iff the refcount is
positive, **or the persist policy is on and the key has been acquired at
least once** (with persistence on, a released sandbox keeps running but a
never-acquired key has no sandbox at all). -/
theorem registry_refcount_running (persist : Bool) (ops : List RegOp) :
    recordedCount (runRegistry persist ops) = pendingAcquires ops ∧
      (sandboxRunning (runRegistry persist ops) = true ↔
        0 < pendingAcquires ops ∨ (persist = true ∧ RegOp.acq ∈ ops)) := by
  have hinv := regInv_run persist ops none 0 false ⟨rfl, fun _ => rfl⟩
  rw [Bool.false_or] at hinv
  unfold runRegistry pendingAcquires
  constructor
  · cases hst : ops.foldl (registryStep persist) none with
    | none =>
      rw [hst] at hinv
      obtain ⟨hp, -⟩ := hinv
      simp [recordedCount, hp]
    | some e =>
      obtain ⟨vm, c⟩ := e
      rw [hst] at hinv
      obtain ⟨hc, -, -, -, -⟩ := hinv
      simp [recordedCount, hc]
  · cases hst : ops.foldl (registryStep persist) none with
    | none =>
      rw [hst] at hinv
      obtain ⟨hp, hacq⟩ := hinv
      simp only [sandboxRunning, Bool.false_eq_true, false_iff]
      rintro (hpos | ⟨hpers, hmem⟩)
      · omega
      · have := hacq hpers
        rw [← hasAcq_iff_mem ops] at hmem
        rw [this] at hmem
        cases hmem
    | some e =>
      obtain ⟨vm, c⟩ := e
      rw [hst] at hinv
      obtain ⟨hc, hrun, hper, hacq, hpos⟩ := hinv
      simp only [sandboxRunning, hrun, true_iff]
      by_cases hpers : persist = true
      · exact Or.inr ⟨hpers, (hasAcq_iff_mem ops).mp hacq⟩
      · left
        have : persist = false := by
          cases persist
          · rfl
          · cases hpers rfl
        have := hpos this
        omega

/-- C1 counterexample: with the persist policy on and no calls at all, no
sandbox exists (so none is running) while the claimed biconditional's
right side (`refcount > 0 ∨ persist`) holds. -/
theorem registry_claim_counterexample : ¬ claimC1Statement true [] := by
  decide

/-! ### C2 -/

lemma toolLoop_bounds (fuel : Nat) :
    ∀ (r : LLMResponse) (oracle : List LLMResponse),
      (toolLoop fuel r oracle).2 ≤ fuel ∧
        (toolLoop fuel r oracle).1 ≤ 2 * (toolLoop fuel r oracle).2 := by
  induction fuel with
  | zero =>
    intro r oracle
    simp [toolLoop]
  | succ f ih =>
    intro r oracle
    obtain ⟨calls⟩ := r
    cases calls with
    | nil => simp [toolLoop]
    | cons call rest =>
      by_cases hk : call.known = true
      · cases oracle with
        | nil =>
          obtain ⟨h1, h2⟩ := ih ⟨[]⟩ []
          simp only [toolLoop, hk, if_true]
          constructor <;> omega
        | cons nxt oracle' =>
          obtain ⟨h1, h2⟩ := ih nxt oracle'
          simp only [toolLoop, hk, if_true]
          constructor <;> omega
      · obtain ⟨h1, h2⟩ := ih ⟨rest⟩ oracle
        simp only [toolLoop, hk, if_false, Bool.false_eq_true]
        constructor <;> omega

/-- C2 (amended): for any first response and any oracle of follow-up
responses, the tool loop of one turn terminates with depth at most
`MAX_TOOL_CALL_DEPTH`, and the turn issues at most `2·d + 1` LLM chat
requests where `d` is the depth reached — one initial request plus, per
supported tool call, one speculative follow-up request and one post-tool
request (an unsupported tool call consumes depth but issues none). -/
theorem tool_loop_terminates_and_bounds (first : LLMResponse)
    (oracle : List LLMResponse) :
    (turnRequests first oracle).2 ≤ MAX_TOOL_CALL_DEPTH ∧
      (turnRequests first oracle).1 ≤ 2 * (turnRequests first oracle).2 + 1 := by
  obtain ⟨h1, h2⟩ := toolLoop_bounds MAX_TOOL_CALL_DEPTH first oracle
  unfold turnRequests
  constructor <;> omega

/-- C2 counterexample: a single supported tool call resolved by one
follow-up response reaches depth 1 but issues 3 LLM chat requests (initial,
speculative follow-up, post-tool), exceeding the claimed `d + 1 = 2`. -/
theorem tool_loop_requests_counterexample :
    turnRequests ⟨[⟨true⟩]⟩ [⟨[]⟩] = (3, 1) ∧ ¬ (3 ≤ 1 + 1) := by
  decide

/-! ### C8 -/

/-- C8 (amended): when the helper map is full, `spawn_agent` returns
`"Agent limit reached"` and leaves the map unchanged **provided the
requested name is not already registered**; a registered name answers
`"Agent <name> already exists"` (also without creating state, even at the
cap); consequently the helper count never exceeds the cap. -/
theorem spawn_agent_cap (maxAgents : Nat) (agents : List String) (name : String) :
    (maxAgents ≤ agents.length → name ∉ agents →
      spawnAgent maxAgents agents name = ("Agent limit reached", agents)) ∧
    (name ∈ agents →
      spawnAgent maxAgents agents name
        = ("Agent " ++ name ++ " already exists", agents)) ∧
    (agents.length ≤ maxAgents → (spawnAgent maxAgents agents name).2.length ≤ maxAgents) := by
  refine ⟨?_, ?_, ?_⟩
  · intro hlen hmem
    simp [spawnAgent, hmem, hlen]
  · intro hmem
    simp [spawnAgent, hmem]
  · intro hlen
    unfold spawnAgent
    by_cases hmem : name ∈ agents
    · simp [hmem, hlen]
    · simp only [hmem, if_false]
      by_cases hcap : maxAgents ≤ agents.length
      · simp [hcap, hlen]
      · simp only [hcap, if_false]
        simp only [List.length_append, List.length_cons, List.length_nil]
        omega

/-- Closed witness for the C8 theorem at a full helper map. -/
theorem spawn_agent_cap_witness :
    spawnAgent 4 ["a", "b", "c", "d"] "e" = ("Agent limit reached", ["a", "b", "c", "d"]) :=
  (spawn_agent_cap 4 ["a", "b", "c", "d"] "e").1 (by decide) (by decide)

/-- C8 counterexample: at the cap, spawning a name that already exists
returns `"Agent a already exists"`, not `"Agent limit reached"`. -/
theorem spawn_agent_cap_counterexample :
    MAX_MINI_AGENTS ≤ (["a", "b", "c", "d"] : List String).length ∧
      spawnAgent MAX_MINI_AGENTS ["a", "b", "c", "d"] "a"
        = ("Agent a already exists", ["a", "b", "c", "d"]) ∧
      ("Agent a already exists" : String) ≠ "Agent limit reached" := by
  refine ⟨by decide, ?_, by decide⟩
  simp [spawnAgent, MAX_MINI_AGENTS]

/-! ### C9 -/

/-- C9 (amended): helpers are destroyed not only on parent exit but also at
the end of **every** completed `chat_stream` turn: after the turn the
helper map is empty (and so is it after `__aexit__`). -/
theorem chat_turn_destroys_helpers (maxAgents : Nat) (t : TeamState)
    (prompt : String) (spawns : List String) (reply : String) :
    (chatStreamTurn maxAgents t prompt spawns reply).agents = [] ∧
      (teamExit t).agents = [] := by
  constructor <;> rfl

/-- C9 counterexample: a helper registered before a chat turn is no longer
registered once the turn completes. -/
theorem helper_unregistered_after_turn :
    "res" ∈ (TeamState.mk ["res"] [] []).agents ∧
      "res" ∉ (chatStreamTurn MAX_MINI_AGENTS (TeamState.mk ["res"] [] [])
        "hi" [] "done").agents := by
  constructor
  · simp
  · intro h
    simp [chatStreamTurn, deliverAgentMessages, destroyAgents] at h

/-! ### C7 / C10 -/

lemma startsWith_append_self (a b : Text) : startsWith (a ++ b) a = true := by
  induction a with
  | nil => simp [startsWith]
  | cons c cs ih => simp [startsWith, ih]

lemma endsWith_append_self (u v : Text) : endsWith (u ++ v) v = true := by
  unfold endsWith
  rw [List.reverse_append]
  exact startsWith_append_self v.reverse u.reverse

lemma isTxtFile_notificationFileName (t : UtcTime) :
    isTxtFile (notificationFileName t) = true := by
  unfold isTxtFile notificationFileName
  exact endsWith_append_self (strftimeTs t) ".txt".data

/-- C7: posting a notification into an empty notifications directory and
fetching returns exactly that one message and empties the directory; a
second fetch returns the empty list. -/
theorem notification_roundtrip (t : UtcTime) (x : Text) :
    fetchNotifications (postNotification t x []) = ([x], []) ∧
      fetchNotifications (fetchNotifications (postNotification t x [])).2 = ([], []) := by
  have hpost : postNotification t x [] = [(notificationFileName t, x)] := rfl
  have htxt := isTxtFile_notificationFileName t
  constructor
  · rw [hpost]
    unfold fetchNotifications
    simp [htxt, sortByName, insertSortedFile]
  · rw [hpost]
    unfold fetchNotifications
    simp [htxt, sortByName]

/-- C10: two `post_notification` calls with the same UTC microsecond
timestamp write the same filename, so the second overwrites the first and
a fetch from a previously empty directory returns only the second
message — the first is silently lost. -/
theorem same_microsecond_notification_lost (t : UtcTime) (m1 m2 : Text) :
    postNotification t m2 (postNotification t m1 []) = postNotification t m2 [] ∧
      fetchNotifications (postNotification t m2 (postNotification t m1 []))
        = ([m2], []) := by
  have hover : postNotification t m2 (postNotification t m1 [])
      = [(notificationFileName t, m2)] := by
    simp [postNotification, writeFile]
  have htxt := isTxtFile_notificationFileName t
  constructor
  · rw [hover]; rfl
  · rw [hover]
    unfold fetchNotifications
    simp [htxt, sortByName, insertSortedFile]

/-! ### C3 -/

lemma phCount_append (l1 l2 : List ChatMsg) :
    phCount (l1 ++ l2) = phCount l1 + phCount l2 := by
  simp [phCount, List.filter_append]

lemma phCount_single (m : ChatMsg) :
    phCount [m] = if isPlaceholderMsg m = true then 1 else 0 := by
  by_cases h : isPlaceholderMsg m = true <;> simp [phCount, List.filter, h]

lemma phCount_nil : phCount [] = 0 := rfl

lemma phCount_cons (m : ChatMsg) (l : List ChatMsg) :
    phCount (m :: l) = (if isPlaceholderMsg m = true then 1 else 0) + phCount l := by
  by_cases h : isPlaceholderMsg m = true <;>
    simp [phCount, List.filter_cons, h] <;> omega

lemma isPlaceholderMsg_assistant (n c : String) :
    isPlaceholderMsg (ChatMsg.mk "assistant" n c) = false := by
  simp [isPlaceholderMsg]

lemma isPlaceholderMsg_tool (n c : String) :
    isPlaceholderMsg (ChatMsg.mk "tool" n c) = decide (c = TOOL_PLACEHOLDER_CONTENT) := by
  simp [isPlaceholderMsg]

lemma unsupported_ne_placeholder (n : String) :
    ("Unsupported tool: " ++ n) ≠ TOOL_PLACEHOLDER_CONTENT := by
  intro h
  have hd := congrArg (fun s : String => s.data.head?) h
  simp [String.data_append, TOOL_PLACEHOLDER_CONTENT] at hd

lemma phCount_eq_zero_iff (l : List ChatMsg) :
    phCount l = 0 ↔ ∀ m ∈ l, isPlaceholderMsg m = false := by
  unfold phCount
  rw [List.length_eq_zero, List.filter_eq_nil_iff]
  simp

lemma removeFirstPh_append_of_none (xs ys : List ChatMsg)
    (h : ∀ m ∈ xs, isPlaceholderMsg m = false) :
    removeFirstPh (xs ++ ys) = xs ++ removeFirstPh ys := by
  induction xs with
  | nil => rfl
  | cons m ms ih =>
    have hm : isPlaceholderMsg m = false := h m (by simp)
    simp only [List.cons_append, removeFirstPh, hm, Bool.false_eq_true, if_false,
      List.append_eq]
    rw [ih (fun x hx => h x (by simp [hx]))]

lemma removeToolPlaceholder_append (l tail : List ChatMsg) (ph : ChatMsg)
    (hl : phCount l = 0) (ht : phCount tail = 0)
    (hph : isPlaceholderMsg ph = true) :
    removeToolPlaceholder (l ++ ph :: tail) = l ++ tail := by
  unfold removeToolPlaceholder
  have hrev : (l ++ ph :: tail).reverse = tail.reverse ++ ph :: l.reverse := by
    simp
  rw [hrev, removeFirstPh_append_of_none _ _
    (fun m hm => ((phCount_eq_zero_iff tail).mp ht) m (List.mem_reverse.mp hm))]
  simp only [removeFirstPh, hph, if_true]
  simp

lemma runToolCall_invariant (log : List ChatMsg) (s : ToolCallScript)
    (hlog : phCount log = 0)
    (hres : s.toolResult ≠ TOOL_PLACEHOLDER_CONTENT) :
    (∀ p ∈ (runToolCall log s).1, phCount p.1 = (if p.2 then 1 else 0)) ∧
      (∀ l ∈ (runToolCall log s).2.1, phCount l = 0) ∧
      phCount (runToolCall log s).2.2 = 0 := by
  have hph : isPlaceholderMsg (placeholderMsgFor s) = true := by
    simp [placeholderMsgFor, isPlaceholderMsg]
  have htool : isPlaceholderMsg (toolResultMsg s) = false := by
    simp [toolResultMsg, isPlaceholderMsg, hres]
  unfold runToolCall
  by_cases hk : s.known = true
  · simp only [hk, if_true]
    by_cases hw : s.toolWins = true
    · simp only [hw, if_true]
      have hrem : removeToolPlaceholder (log ++ [placeholderMsgFor s]) = log := by
        have := removeToolPlaceholder_append log [] (placeholderMsgFor s) hlog rfl hph
        simpa using this
      rw [hrem]
      refine ⟨?_, ?_, ?_⟩
      · intro p hp
        simp only [List.mem_cons, List.mem_singleton, List.not_mem_nil, or_false] at hp
        rcases hp with rfl | rfl | rfl
        · simp [phCount_append, hlog, phCount_single, phCount_cons, phCount_nil, hph]
        · simp [phCount_append, hlog, phCount_single, phCount_cons, phCount_nil, htool, isPlaceholderMsg_assistant]
        · simp [phCount_append, hlog, phCount_single, phCount_cons, phCount_nil, htool, isPlaceholderMsg_assistant]
      · intro l hl
        simp only [List.mem_singleton] at hl
        subst hl
        exact hlog
      · simp [phCount_append, hlog, phCount_single, phCount_cons, phCount_nil, htool, isPlaceholderMsg_assistant]
    · simp only [hw, Bool.false_eq_true, if_false]
      have hassoc : log ++ [placeholderMsgFor s] ++ [ChatMsg.mk "assistant" "" s.followContent]
          = log ++ placeholderMsgFor s :: [ChatMsg.mk "assistant" "" s.followContent] := by
        simp
      have hrem : removeToolPlaceholder
          (log ++ [placeholderMsgFor s] ++ [ChatMsg.mk "assistant" "" s.followContent])
          = log ++ [ChatMsg.mk "assistant" "" s.followContent] := by
        rw [hassoc]
        exact removeToolPlaceholder_append log [ChatMsg.mk "assistant" "" s.followContent]
          (placeholderMsgFor s) hlog (by simp [phCount, isPlaceholderMsg_assistant]) hph
      rw [hrem]
      refine ⟨?_, ?_, ?_⟩
      · intro p hp
        simp only [List.mem_cons, List.mem_singleton, List.not_mem_nil, or_false] at hp
        rcases hp with rfl | rfl | rfl | rfl
        · simp [phCount_append, hlog, phCount_single, phCount_cons, phCount_nil, hph]
        · simp [phCount_append, hlog, phCount_single, phCount_cons, phCount_nil, hph, isPlaceholderMsg_assistant]
        · simp [phCount_append, hlog, phCount_single, phCount_cons, phCount_nil, htool, isPlaceholderMsg_assistant]
        · simp [phCount_append, hlog, phCount_single, phCount_cons, phCount_nil, htool, isPlaceholderMsg_assistant]
      · intro l hl
        simp only [List.mem_singleton] at hl
        subst hl
        simp [phCount_append, hlog, phCount_single, phCount_cons, phCount_nil, isPlaceholderMsg_assistant]
      · simp [phCount_append, hlog, phCount_single, phCount_cons, phCount_nil, htool, isPlaceholderMsg_assistant]
  · simp only [hk, Bool.false_eq_true, if_false]
    have hun : isPlaceholderMsg
        (ChatMsg.mk "tool" (displayName s.fname) ("Unsupported tool: " ++ s.fname)) = false := by
      simp [isPlaceholderMsg, unsupported_ne_placeholder]
    refine ⟨?_, ?_, ?_⟩
    · intro p hp
      simp only [List.mem_singleton] at hp
      subst hp
      simp [phCount_append, hlog, phCount_single, phCount_cons, phCount_nil, hun]
    · intro l hl
      simp at hl
    · simp [phCount_append, hlog, phCount_single, phCount_cons, phCount_nil, hun]

/-- C3 (confirmed): along one turn whose tool results never literally equal
the placeholder text, every observable log state (an `await` or `yield`
point) contains exactly one placeholder message inside the race window
(from launching a tool call to appending its real result) and none outside
it; the placeholder is removed before the real tool result is appended (the
log at each real-result append holds no placeholder), and the final log
holds none. -/
theorem placeholder_window_invariant (log0 : List ChatMsg)
    (script : List ToolCallScript)
    (h0 : phCount log0 = 0)
    (hres : ∀ s ∈ script, s.toolResult ≠ TOOL_PLACEHOLDER_CONTENT) :
    (∀ p ∈ (runTurnCalls log0 script).1, phCount p.1 = (if p.2 then 1 else 0)) ∧
      (∀ l ∈ (runTurnCalls log0 script).2.1, phCount l = 0) ∧
      phCount (runTurnCalls log0 script).2.2 = 0 := by
  induction script generalizing log0 with
  | nil =>
    refine ⟨?_, ?_, h0⟩ <;> intro p hp <;> simp [runTurnCalls] at hp
  | cons s rest ih =>
    have hs : s.toolResult ≠ TOOL_PLACEHOLDER_CONTENT := hres s (by simp)
    obtain ⟨hsnap, hpre, hfin⟩ := runToolCall_invariant log0 s h0 hs
    obtain ⟨hsnap', hpre', hfin'⟩ :=
      ih ((runToolCall log0 s).2.2) hfin (fun x hx => hres x (by simp [hx]))
    refine ⟨?_, ?_, ?_⟩
    · intro p hp
      simp only [runTurnCalls, List.mem_append] at hp
      rcases hp with hp | hp
      · exact hsnap p hp
      · exact hsnap' p hp
    · intro l hl
      simp only [runTurnCalls, List.mem_append] at hl
      rcases hl with hl | hl
      · exact hpre l hl
      · exact hpre' l hl
    · simpa [runTurnCalls] using hfin'

/-- Closed witness for the C3 theorem: one supported tool call
(`execute_terminal`, tool wins the race) starting from the empty log. -/
theorem placeholder_window_invariant_witness :
    (∀ p ∈ (runTurnCalls []
        [ToolCallScript.mk "execute_terminal" true true "ok" "" "done"]).1,
      phCount p.1 = (if p.2 then 1 else 0)) ∧
      (∀ l ∈ (runTurnCalls []
          [ToolCallScript.mk "execute_terminal" true true "ok" "" "done"]).2.1,
        phCount l = 0) ∧
      phCount (runTurnCalls []
        [ToolCallScript.mk "execute_terminal" true true "ok" "" "done"]).2.2 = 0 :=
  placeholder_window_invariant []
    [ToolCallScript.mk "execute_terminal" true true "ok" "" "done"]
    (by decide) (by decide)

/-! ### JSON string-literal roundtrip -/

lemma parseStringBody_quote (rest : Text) :
    parseStringBody ('"' :: rest) = some ([], rest) := by
  rw [parseStringBody.eq_def]
  dsimp only
  rw [if_pos rfl]

lemma parseStringBody_raw (c : Char) (rest : Text) (h1 : ¬ c = '"')
    (h2 : ¬ c = '\\') (h3 : ¬ c.toNat < 0x20) :
    parseStringBody (c :: rest)
      = (parseStringBody rest).map (fun p => (c :: p.1, p.2)) := by
  rw [parseStringBody.eq_def]
  dsimp only
  rw [if_neg h1, if_neg h2, if_neg h3]

lemma parseStringBody_esc (e : Char) (rest : Text) (d : Char)
    (he : ¬ e = 'u') (hd : escDecode e = some d) :
    parseStringBody ('\\' :: e :: rest)
      = (parseStringBody rest).map (fun p => (d :: p.1, p.2)) := by
  rw [parseStringBody.eq_def]
  dsimp only
  rw [if_neg (by decide : ¬('\\' : Char) = '"'), if_pos (rfl : ('\\' : Char) = '\\')]
  rw [if_neg he, hd]

lemma hexVal_hexDigitChar (n : Nat) (h : n < 16) :
    hexVal (hexDigitChar n) = some n := by
  interval_cases n <;> decide

lemma parseStringBody_u (c : Char) (rest : Text) (hlt : c.toNat < 0x20) :
    parseStringBody ('\\' :: 'u' :: '0' :: '0' ::
        hexDigitChar (c.toNat / 16) :: hexDigitChar (c.toNat % 16) :: rest)
      = (parseStringBody rest).map (fun p => (c :: p.1, p.2)) := by
  rw [parseStringBody.eq_def]
  dsimp only
  rw [if_neg (by decide : ¬('\\' : Char) = '"'), if_pos (rfl : ('\\' : Char) = '\\'),
    if_pos (rfl : ('u' : Char) = 'u')]
  rw [show hexVal '0' = some 0 from rfl,
    hexVal_hexDigitChar (c.toNat / 16) (by omega),
    hexVal_hexDigitChar (c.toNat % 16) (by omega)]
  dsimp only
  have hn : ((0 * 16 + 0) * 16 + c.toNat / 16) * 16 + c.toNat % 16 = c.toNat := by
    omega
  rw [hn, if_pos (Or.inl (by omega) : (c.toNat).isValidChar), Char.ofNat_toNat]

lemma escapeString_cons (c : Char) (s : Text) :
    escapeString (c :: s) = escapeChar c ++ escapeString s := rfl

lemma parse_escapeString (s : Text) :
    ∀ rest, parseStringBody (escapeString s ++ '"' :: rest) = some (s, rest) := by
  induction s with
  | nil => exact fun rest => parseStringBody_quote rest
  | cons c cs ih =>
    intro rest
    rw [escapeString_cons, List.append_assoc]
    by_cases h1 : c = '"'
    · subst h1
      rw [show escapeChar '"' = ['\\', '"'] from rfl]
      rw [show ((['\\', '"'] : Text) ++ (escapeString cs ++ '"' :: rest))
          = '\\' :: '"' :: (escapeString cs ++ '"' :: rest) from rfl]
      rw [parseStringBody_esc '"' _ '"' (by decide) rfl, ih rest, Option.map_some']
    · by_cases h2 : c = '\\'
      · subst h2
        rw [show escapeChar '\\' = ['\\', '\\'] from rfl]
        rw [show ((['\\', '\\'] : Text) ++ (escapeString cs ++ '"' :: rest))
            = '\\' :: '\\' :: (escapeString cs ++ '"' :: rest) from rfl]
        rw [parseStringBody_esc '\\' _ '\\' (by decide) rfl, ih rest, Option.map_some']
      · by_cases h3 : c = '\n'
        · subst h3
          rw [show escapeChar '\n' = ['\\', 'n'] from rfl]
          rw [show ((['\\', 'n'] : Text) ++ (escapeString cs ++ '"' :: rest))
              = '\\' :: 'n' :: (escapeString cs ++ '"' :: rest) from rfl]
          rw [parseStringBody_esc 'n' _ '\n' (by decide) rfl, ih rest, Option.map_some']
        · by_cases h4 : c = '\r'
          · subst h4
            rw [show escapeChar '\r' = ['\\', 'r'] from rfl]
            rw [show ((['\\', 'r'] : Text) ++ (escapeString cs ++ '"' :: rest))
                = '\\' :: 'r' :: (escapeString cs ++ '"' :: rest) from rfl]
            rw [parseStringBody_esc 'r' _ '\r' (by decide) rfl, ih rest, Option.map_some']
          · by_cases h5 : c = '\t'
            · subst h5
              rw [show escapeChar '\t' = ['\\', 't'] from rfl]
              rw [show ((['\\', 't'] : Text) ++ (escapeString cs ++ '"' :: rest))
                  = '\\' :: 't' :: (escapeString cs ++ '"' :: rest) from rfl]
              rw [parseStringBody_esc 't' _ '\t' (by decide) rfl, ih rest, Option.map_some']
            · by_cases h6 : c = '\x08'
              · subst h6
                rw [show escapeChar '\x08' = ['\\', 'b'] from rfl]
                rw [show ((['\\', 'b'] : Text) ++ (escapeString cs ++ '"' :: rest))
                    = '\\' :: 'b' :: (escapeString cs ++ '"' :: rest) from rfl]
                rw [parseStringBody_esc 'b' _ '\x08' (by decide) rfl, ih rest, Option.map_some']
              · by_cases h7 : c = '\x0c'
                · subst h7
                  rw [show escapeChar '\x0c' = ['\\', 'f'] from rfl]
                  rw [show ((['\\', 'f'] : Text) ++ (escapeString cs ++ '"' :: rest))
                      = '\\' :: 'f' :: (escapeString cs ++ '"' :: rest) from rfl]
                  rw [parseStringBody_esc 'f' _ '\x0c' (by decide) rfl, ih rest, Option.map_some']
                · by_cases h8 : c.toNat < 0x20
                  · have hesc : escapeChar c = ['\\', 'u', '0', '0',
                        hexDigitChar (c.toNat / 16), hexDigitChar (c.toNat % 16)] := by
                      simp [escapeChar, h1, h2, h3, h4, h5, h6, h7, h8]
                    rw [hesc]
                    rw [show ((['\\', 'u', '0', '0', hexDigitChar (c.toNat / 16),
                          hexDigitChar (c.toNat % 16)] : Text)
                          ++ (escapeString cs ++ '"' :: rest))
                        = '\\' :: 'u' :: '0' :: '0' :: hexDigitChar (c.toNat / 16)
                          :: hexDigitChar (c.toNat % 16)
                          :: (escapeString cs ++ '"' :: rest) from rfl]
                    rw [parseStringBody_u c _ h8, ih rest, Option.map_some']
                  · have hesc : escapeChar c = [c] := by
                      simp [escapeChar, h1, h2, h3, h4, h5, h6, h7, h8]
                    rw [hesc]
                    rw [show (([c] : Text) ++ (escapeString cs ++ '"' :: rest))
                        = c :: (escapeString cs ++ '"' :: rest) from rfl]
                    rw [parseStringBody_raw c _ h1 h2 h8, ih rest, Option.map_some']

/-! ### Whitespace and token lemmas -/

lemma skipWs_append_ws (pre s : Text) (h : ∀ c ∈ pre, isJsonWs c = true) :
    skipWs (pre ++ s) = skipWs s := by
  induction pre with
  | nil => rfl
  | cons c cs ih =>
    have hc : isJsonWs c = true := h c (by simp)
    simp only [List.cons_append, skipWs, List.dropWhile_cons, hc, if_true]
    exact ih (fun x hx => h x (by simp [hx]))

lemma skipWs_cons_neg (c : Char) (s : Text) (h : isJsonWs c = false) :
    skipWs (c :: s) = c :: s := by
  simp [skipWs, List.dropWhile_cons, h]

lemma indentPad_ws (n : Nat) : ∀ c ∈ indentPad n, isJsonWs c = true := by
  intro c hc
  have hc2 : c ∈ List.replicate n ' ' := by simpa [indentPad] using hc
  rw [List.eq_of_mem_replicate hc2]
  decide

lemma takeWhile_append_stop (p : Char → Bool) (t rest : Text)
    (h : ∀ c ∈ t, p c = true)
    (hr : ∀ c cs, rest = c :: cs → p c = false) :
    (t ++ rest).takeWhile p = t ∧ (t ++ rest).dropWhile p = rest := by
  induction t with
  | nil =>
    cases rest with
    | nil => exact ⟨rfl, rfl⟩
    | cons r rs =>
      have := hr r rs rfl
      simp [List.takeWhile_cons, List.dropWhile_cons, this]
  | cons c cs ih =>
    have hc : p c = true := h c (by simp)
    have := ih (fun x hx => h x (by simp [hx]))
    simp [List.takeWhile_cons, List.dropWhile_cons, hc, this.1, this.2]

lemma char_toNat_bounds_of_isDigit (c : Char) (h : c.isDigit = true) :
    48 ≤ c.toNat ∧ c.toNat ≤ 57 := by
  unfold Char.isDigit at h
  rw [Bool.and_eq_true, decide_eq_true_eq, decide_eq_true_eq] at h
  exact ⟨UInt32.le_toNat_of_le (by decide) h.1, UInt32.toNat_le_of_le (by decide) h.2⟩

lemma num_head_facts (c : Char) (h1 : 45 ≤ c.toNat) (h2 : c.toNat ≤ 57) :
    isJsonWs c = false ∧ ¬c = '\x7b' ∧ ¬c = '[' ∧ ¬c = '"' ∧ ¬c = 'n' ∧
      ¬c = 't' ∧ ¬c = 'f' ∧ ¬c = ']' ∧ ¬c = '\x7d' := by
  refine ⟨?_, ?_, ?_, ?_, ?_, ?_, ?_, ?_, ?_⟩
  · simp only [isJsonWs, Bool.or_eq_false_iff, decide_eq_false_iff_not]
    refine ⟨⟨⟨?_, ?_⟩, ?_⟩, ?_⟩ <;> (rintro rfl; revert h1 h2; decide)
  all_goals (rintro rfl; revert h1 h2; decide)

lemma num_head_bounds (c : Char) (h : (c.isDigit || c = '-') = true) :
    45 ≤ c.toNat ∧ c.toNat ≤ 57 := by
  rw [Bool.or_eq_true] at h
  rcases h with h | h
  · have := char_toNat_bounds_of_isDigit c h
    omega
  · rw [decide_eq_true_eq] at h
    subst h
    decide

/-! ### Separator-form lemmas for rendered containers -/

lemma dumpsItems_eq_sep (ind closeInd : Nat) (rest : Text) (x : Json)
    (xs : List Json) :
    dumpsItems ind x xs ++ '\n' :: (indentPad closeInd ++ ']' :: rest)
      = indentPad ind ++ (dumpsVal ind x ++ itemsSep ind xs closeInd rest) := by
  induction xs generalizing x with
  | nil => simp [dumpsItems, itemsSep]
  | cons y ys ih =>
    rw [dumpsItems, itemsSep]
    rw [show indentPad ind ++ dumpsVal ind x ++ ',' :: '\n' :: dumpsItems ind y ys
        = indentPad ind ++ dumpsVal ind x ++ (',' :: '\n' :: dumpsItems ind y ys)
        from rfl]
    simp only [List.append_assoc, List.cons_append, List.nil_append]
    rw [ih y]

lemma dumpsMembers_eq_sep (ind closeInd : Nat) (rest : Text) (k : Text)
    (v : Json) (ms : List (Text × Json)) :
    dumpsMembers ind k v ms ++ '\n' :: (indentPad closeInd ++ '\x7d' :: rest)
      = indentPad ind ++ ((dumpString k ++ ':' :: ' ' :: dumpsVal ind v)
          ++ membersSep ind ms closeInd rest) := by
  induction ms generalizing k v with
  | nil => simp [dumpsMembers, membersSep]
  | cons m ms2 ih =>
    obtain ⟨k2, v2⟩ := m
    rw [dumpsMembers, membersSep]
    simp only [List.append_assoc, List.cons_append, List.nil_append]
    rw [ih k2 v2]
    simp

/-! ### JSON serialization round-trip (dumps then loads) -/

lemma dumpsVal_head (ind : Nat) (j : Json) (hwf : wfJson j = true) :
    ∃ c cs, dumpsVal ind j = c :: cs ∧ isJsonWs c = false ∧ ¬c = ']' ∧ ¬c = '\x7d' := by
  cases j with
  | null => exact ⟨'n', "ull".data, by simp [dumpsVal], by decide, by decide, by decide⟩
  | bool b =>
    cases b with
    | true => exact ⟨'t', "rue".data, by simp [dumpsVal], by decide, by decide, by decide⟩
    | false => exact ⟨'f', "alse".data, by simp [dumpsVal], by decide, by decide, by decide⟩
  | num t =>
    cases t with
    | nil => simp [wfJson, isWfNumToken] at hwf
    | cons c cs =>
      have hw : (c.isDigit || c = '-') = true := by
        have := hwf
        simp [wfJson, isWfNumToken, Bool.and_eq_true] at this
        rcases this.1 with h | h
        · simp [h]
        · simp [h]
      have hb := num_head_bounds c hw
      have hf := num_head_facts c hb.1 hb.2
      exact ⟨c, cs, by simp [dumpsVal], hf.1, hf.2.2.2.2.2.2.2.1, hf.2.2.2.2.2.2.2.2⟩
  | str s =>
    exact ⟨'"', escapeString s ++ ['"'], by simp [dumpsVal, dumpString], by decide,
      by decide, by decide⟩
  | arr xs =>
    cases xs with
    | nil => exact ⟨'[', [']'], by simp [dumpsVal], by decide, by decide, by decide⟩
    | cons x xs2 =>
      exact ⟨'[', '\n' :: (dumpsItems (ind + 2) x xs2 ++ '\n' :: (indentPad ind ++ [']'])),
        by simp [dumpsVal], by decide, by decide, by decide⟩
  | obj ms =>
    cases ms with
    | nil => exact ⟨'\x7b', ['\x7d'], by simp [dumpsVal], by decide, by decide, by decide⟩
    | cons m ms2 =>
      obtain ⟨k, v⟩ := m
      exact ⟨'\x7b', '\n' :: (dumpsMembers (ind + 2) k v ms2 ++ '\n' :: (indentPad ind ++ ['\x7d'])),
        by simp [dumpsVal], by decide, by decide, by decide⟩

lemma skipWs_pre_dumpsVal (pre : Text) (ind : Nat) (j : Json) (rest : Text)
    (hpre : ∀ c ∈ pre, isJsonWs c = true) (hwf : wfJson j = true) :
    skipWs (pre ++ (dumpsVal ind j ++ rest)) = dumpsVal ind j ++ rest := by
  rw [skipWs_append_ws pre _ hpre]
  obtain ⟨c, cs, hc, hws, -, -⟩ := dumpsVal_head ind j hwf
  rw [hc, List.cons_append, skipWs_cons_neg _ _ hws]

lemma setKey_of_not_mem (l : List (Text × Json)) (k : Text) (v : Json)
    (h : ¬ k ∈ l.map Prod.fst) : setKey l k v = l ++ [(k, v)] := by
  induction l with
  | nil => rfl
  | cons p ps ih =>
    obtain ⟨k2, v2⟩ := p
    have hne : ¬ k2 = k := fun he => h (by simp [he])
    simp only [setKey, hne, if_false, List.cons_append]
    rw [ih (fun hm => h (by simp [hm]))]

lemma distinctKeysB_eq_true_iff (l : List Text) :
    distinctKeysB l = true ↔ l.Nodup := by
  induction l with
  | nil => simp [distinctKeysB]
  | cons k ks ih =>
    simp [distinctKeysB, ih, List.contains, List.elem_eq_mem, List.nodup_cons]

lemma setKeyFold_eq_append : ∀ (ms acc : List (Text × Json)),
    distinctKeysB ((acc ++ ms).map Prod.fst) = true → setKeyFold acc ms = acc ++ ms := by
  intro ms
  induction ms with
  | nil => intro acc h; simp [setKeyFold]
  | cons m ms2 ih =>
    intro acc h
    obtain ⟨k, v⟩ := m
    have hnd := (distinctKeysB_eq_true_iff _).mp h
    rw [List.map_append, List.nodup_append] at hnd
    have hk : ¬ k ∈ acc.map Prod.fst := fun hmem => hnd.2.2 hmem (by simp)
    have hstep : setKeyFold acc ((k, v) :: ms2) = setKeyFold (acc ++ [(k, v)]) ms2 := by
      simp [setKeyFold, setKey_of_not_mem acc k v hk]
    rw [hstep, ih (acc ++ [(k, v)]) (by simpa using h)]
    simp

set_option maxHeartbeats 2000000

lemma parse_dumps_all (fuel : Nat) :
    (∀ (j : Json) (ind : Nat) (pre rest : Text), wfJson j = true → needFuel j ≤ fuel →
      (∀ c ∈ pre, isJsonWs c = true) →
      (∀ c cs, rest = c :: cs → isNumContChar c = false) →
      parseValue fuel (pre ++ (dumpsVal ind j ++ rest)) = some (j, rest)) ∧
    (∀ (x : Json) (xs : List Json) (ind closeInd : Nat) (rest : Text)
        (acc : List Json) (pre : Text),
      wfJson x = true → wfList xs = true → needItemsFuel (x :: xs) ≤ fuel →
      (∀ c ∈ pre, isJsonWs c = true) →
      parseItems fuel (pre ++ (dumpsVal ind x ++ itemsSep ind xs closeInd rest)) acc
        = some (Json.arr (acc ++ x :: xs), rest)) ∧
    (∀ (k : Text) (v : Json) (ms : List (Text × Json)) (ind closeInd : Nat)
        (rest : Text) (acc : List (Text × Json)) (pre : Text),
      wfJson v = true → wfMembers ms = true → needMembersFuel ((k, v) :: ms) ≤ fuel →
      (∀ c ∈ pre, isJsonWs c = true) →
      parseMembers fuel (pre ++ ((dumpString k ++ ':' :: ' ' :: dumpsVal ind v)
          ++ membersSep ind ms closeInd rest)) acc
        = some (Json.obj (setKeyFold (setKey acc k v) ms), rest)) := by
  induction fuel using Nat.strong_induction_on with
  | _ fuel ih =>
  refine ⟨?_, ?_, ?_⟩
  · -- P: values
    intro j ind pre rest hwf hfuel hpre hrest
    have hfuel1 : 1 ≤ fuel := by
      refine le_trans ?_ hfuel
      cases j <;> simp [needFuel] <;> omega
    obtain ⟨f, rfl⟩ : ∃ f, fuel = f + 1 := ⟨fuel - 1, by omega⟩
    rw [parseValue.eq_def]
    dsimp only
    rw [skipWs_pre_dumpsVal pre ind j rest hpre hwf]
    cases j with
    | null =>
      rw [show dumpsVal ind Json.null = 'n' :: "ull".data from by simp [dumpsVal]]
      dsimp only [List.cons_append]
      simp [startsWith]
    | bool b =>
      cases b with
      | true =>
        rw [show dumpsVal ind (Json.bool true) = 't' :: "rue".data from by simp [dumpsVal]]
        dsimp only [List.cons_append]
        simp [startsWith]
      | false =>
        rw [show dumpsVal ind (Json.bool false) = 'f' :: "alse".data from by simp [dumpsVal]]
        dsimp only [List.cons_append]
        simp [startsWith]
    | num t =>
      cases t with
      | nil => simp [wfJson, isWfNumToken] at hwf
      | cons c cs =>
        have h0 : isWfNumToken (c :: cs) = true := by simpa [wfJson] using hwf
        have h1 : ((c.isDigit || c = '-') && (c :: cs).all isNumContChar) = true := h0
        rw [Bool.and_eq_true] at h1
        have hw2 : (c.isDigit || c = '-') = true ∧ ∀ x ∈ c :: cs, isNumContChar x = true :=
          ⟨h1.1, List.all_eq_true.mp h1.2⟩
        have hb := num_head_bounds c hw2.1
        have hf := num_head_facts c hb.1 hb.2
        rw [show dumpsVal ind (Json.num (c :: cs)) = c :: cs from by simp [dumpsVal]]
        dsimp only [List.cons_append]
        rw [if_neg hf.2.1, if_neg hf.2.2.1, if_neg hf.2.2.2.1, if_neg hf.2.2.2.2.1,
          if_neg hf.2.2.2.2.2.1, if_neg hf.2.2.2.2.2.2.1, if_pos hw2.1]
        have hsplit := takeWhile_append_stop isNumContChar (c :: cs) rest hw2.2 hrest
        rw [show c :: (cs ++ rest) = (c :: cs) ++ rest from rfl, hsplit.1, hsplit.2]
    | str s2 =>
      rw [show dumpsVal ind (Json.str s2) = '"' :: (escapeString s2 ++ ['"'])
        from by simp [dumpsVal, dumpString]]
      dsimp only [List.cons_append]
      rw [if_neg (by decide), if_neg (by decide), if_pos rfl]
      rw [show (escapeString s2 ++ ['"']) ++ rest = escapeString s2 ++ '"' :: rest
        from by simp]
      rw [parse_escapeString s2 rest, Option.map_some']
    | arr xs =>
      cases xs with
      | nil =>
        have hf2 : 1 ≤ f := by
          simp [needFuel, needItemsFuel] at hfuel
          omega
        obtain ⟨g, rfl⟩ : ∃ g, f = g + 1 := ⟨f - 1, by omega⟩
        rw [show dumpsVal ind (Json.arr []) = '[' :: [']'] from by simp [dumpsVal]]
        dsimp only [List.cons_append, List.nil_append]
        rw [if_neg (by decide), if_pos rfl]
        rw [parseArrBody.eq_def]
        dsimp only
        rw [skipWs_cons_neg _ _ (by decide)]
        dsimp only
        rw [if_pos rfl]
      | cons x xs2 =>
        have hwx : wfJson x = true ∧ wfList xs2 = true := by
          have h1 : wfList (x :: xs2) = true := by simpa [wfJson] using hwf
          have h2 : (wfJson x && wfList xs2) = true := by simpa [wfList] using h1
          rw [Bool.and_eq_true] at h2
          exact h2
        have hfu : needItemsFuel (x :: xs2) + 2 ≤ f + 1 := by
          have : needFuel (Json.arr (x :: xs2)) = 2 + needItemsFuel (x :: xs2) := by
            simp [needFuel]
          omega
        obtain ⟨g, rfl⟩ : ∃ g, f = g + 1 := ⟨f - 1, by omega⟩
        have hshape : dumpsVal ind (Json.arr (x :: xs2)) ++ rest
            = '[' :: ('\n' :: (indentPad (ind + 2)
                ++ (dumpsVal (ind + 2) x ++ itemsSep (ind + 2) xs2 ind rest))) := by
          rw [show dumpsVal ind (Json.arr (x :: xs2))
              = '[' :: '\n' :: (dumpsItems (ind + 2) x xs2 ++ '\n' :: (indentPad ind ++ [']']))
            from by simp [dumpsVal]]
          rw [← dumpsItems_eq_sep (ind + 2) ind rest x xs2]
          simp
        rw [hshape]
        dsimp only
        rw [if_neg (by decide), if_pos rfl]
        rw [parseArrBody.eq_def]
        dsimp only
        have hskip : skipWs ('\n' :: (indentPad (ind + 2)
              ++ (dumpsVal (ind + 2) x ++ itemsSep (ind + 2) xs2 ind rest)))
            = dumpsVal (ind + 2) x ++ itemsSep (ind + 2) xs2 ind rest := by
          rw [show ('\n' :: (indentPad (ind + 2)
                ++ (dumpsVal (ind + 2) x ++ itemsSep (ind + 2) xs2 ind rest)))
              = ('\n' :: indentPad (ind + 2))
                ++ ((dumpsVal (ind + 2) x ++ itemsSep (ind + 2) xs2 ind rest)) from by simp]
          rw [skipWs_append_ws _ _ ?hws]
          case hws =>
            intro c hc
            simp only [List.mem_cons] at hc
            rcases hc with rfl | hc
            · decide
            · exact indentPad_ws _ c hc
          obtain ⟨c, cs2, hc, hcws, -, -⟩ := dumpsVal_head (ind + 2) x hwx.1
          rw [hc, List.cons_append, skipWs_cons_neg _ _ hcws]
        rw [hskip]
        obtain ⟨c, cs2, hc, hcws, hne1, hne2⟩ := dumpsVal_head (ind + 2) x hwx.1
        rw [hc, List.cons_append]
        dsimp only
        rw [if_neg hne1]
        rw [← List.cons_append, ← hc]
        have hq := (ih g (by omega)).2.1 x xs2 (ind + 2) ind rest [] []
          hwx.1 hwx.2 (by simp [needItemsFuel] at hfu ⊢; omega) (by intro c2 hc2; cases hc2)
        simpa using hq
    | obj ms =>
      cases ms with
      | nil =>
        have hf2 : 1 ≤ f := by
          simp [needFuel, needMembersFuel] at hfuel
          omega
        obtain ⟨g, rfl⟩ : ∃ g, f = g + 1 := ⟨f - 1, by omega⟩
        rw [show dumpsVal ind (Json.obj []) = '\x7b' :: ['\x7d'] from by simp [dumpsVal]]
        dsimp only [List.cons_append, List.nil_append]
        rw [if_pos rfl]
        rw [parseObjBody.eq_def]
        dsimp only
        rw [skipWs_cons_neg _ _ (by decide)]
        dsimp only
        rw [if_pos rfl]
      | cons m ms2 =>
        obtain ⟨k, v⟩ := m
        have hwv : distinctKeysB (((k, v) :: ms2).map Prod.fst) = true
            ∧ wfJson v = true ∧ wfMembers ms2 = true := by
          have h1 : (distinctKeysB (((k, v) :: ms2).map Prod.fst)
              && wfMembers ((k, v) :: ms2)) = true := by simpa [wfJson] using hwf
          rw [Bool.and_eq_true] at h1
          have h3 : (wfJson v && wfMembers ms2) = true := by
            simpa [wfMembers] using h1.2
          rw [Bool.and_eq_true] at h3
          exact ⟨h1.1, h3⟩
        have hfu : needMembersFuel ((k, v) :: ms2) + 2 ≤ f + 1 := by
          have : needFuel (Json.obj ((k, v) :: ms2)) = 2 + needMembersFuel ((k, v) :: ms2) := by
            simp [needFuel]
          omega
        obtain ⟨g, rfl⟩ : ∃ g, f = g + 1 := ⟨f - 1, by omega⟩
        have hshape : dumpsVal ind (Json.obj ((k, v) :: ms2)) ++ rest
            = '\x7b' :: ('\n' :: (indentPad (ind + 2)
                ++ ((dumpString k ++ ':' :: ' ' :: dumpsVal (ind + 2) v)
                  ++ membersSep (ind + 2) ms2 ind rest))) := by
          rw [show dumpsVal ind (Json.obj ((k, v) :: ms2))
              = '\x7b' :: '\n' :: (dumpsMembers (ind + 2) k v ms2
                  ++ '\n' :: (indentPad ind ++ ['\x7d']))
            from by simp [dumpsVal]]
          rw [← dumpsMembers_eq_sep (ind + 2) ind rest k v ms2]
          simp
        rw [hshape]
        dsimp only
        rw [if_pos rfl]
        rw [parseObjBody.eq_def]
        dsimp only
        have hskip : skipWs ('\n' :: (indentPad (ind + 2)
              ++ ((dumpString k ++ ':' :: ' ' :: dumpsVal (ind + 2) v)
                ++ membersSep (ind + 2) ms2 ind rest)))
            = (dumpString k ++ ':' :: ' ' :: dumpsVal (ind + 2) v)
                ++ membersSep (ind + 2) ms2 ind rest := by
          rw [show ('\n' :: (indentPad (ind + 2)
                ++ ((dumpString k ++ ':' :: ' ' :: dumpsVal (ind + 2) v)
                  ++ membersSep (ind + 2) ms2 ind rest)))
              = ('\n' :: indentPad (ind + 2))
                ++ ((dumpString k ++ ':' :: ' ' :: dumpsVal (ind + 2) v)
                  ++ membersSep (ind + 2) ms2 ind rest) from by simp]
          rw [skipWs_append_ws _ _ ?hws2]
          case hws2 =>
            intro c hc
            simp only [List.mem_cons] at hc
            rcases hc with rfl | hc
            · decide
            · exact indentPad_ws _ c hc
          rw [show (dumpString k ++ ':' :: ' ' :: dumpsVal (ind + 2) v)
                ++ membersSep (ind + 2) ms2 ind rest
              = '"' :: ((escapeString k ++ ['"'])
                ++ (':' :: ' ' :: dumpsVal (ind + 2) v
                  ++ membersSep (ind + 2) ms2 ind rest)) from by simp [dumpString]]
          rw [skipWs_cons_neg _ _ (by decide)]
        rw [hskip]
        rw [show (dumpString k ++ ':' :: ' ' :: dumpsVal (ind + 2) v)
              ++ membersSep (ind + 2) ms2 ind rest
            = '"' :: ((escapeString k ++ ['"'])
              ++ (':' :: ' ' :: dumpsVal (ind + 2) v
                ++ membersSep (ind + 2) ms2 ind rest)) from by simp [dumpString]]
        dsimp only
        rw [if_neg (by decide)]
        rw [show ('"' : Char) :: ((escapeString k ++ ['"'])
              ++ (':' :: ' ' :: dumpsVal (ind + 2) v
                ++ membersSep (ind + 2) ms2 ind rest))
            = [] ++ ((dumpString k ++ ':' :: ' ' :: dumpsVal (ind + 2) v)
              ++ membersSep (ind + 2) ms2 ind rest) from by simp [dumpString]]
        have hr := (ih g (by omega)).2.2 k v ms2 (ind + 2) ind rest [] []
          hwv.2.1 hwv.2.2 (by simp [needMembersFuel] at hfu ⊢; omega)
          (by intro c2 hc2; cases hc2)
        rw [hr]
        have : setKeyFold (setKey [] k v) ms2 = (k, v) :: ms2 := by
          have := setKeyFold_eq_append ms2 [(k, v)] (by simpa using hwv.1)
          simpa [setKey] using this
        rw [this]
  · -- Q: array items
    intro x xs ind closeInd rest acc pre hwfx hwfxs hfuel hpre
    obtain ⟨f, rfl⟩ : ∃ f, fuel = f + 1 := by
      refine ⟨fuel - 1, ?_⟩
      simp [needItemsFuel] at hfuel
      omega
    have hx : needFuel x ≤ f := by
      simp [needItemsFuel] at hfuel
      omega
    rw [parseItems.eq_def]
    dsimp only
    cases xs with
    | nil =>
      have hv := (ih f (by omega)).1 x ind pre (itemsSep ind [] closeInd rest) hwfx hx hpre
        (by
          intro c cs hcs
          rw [show itemsSep ind ([] : List Json) closeInd rest
            = '\n' :: (indentPad closeInd ++ ']' :: rest) from by simp [itemsSep]] at hcs
          injection hcs with h1 h2
          rw [← h1]
          decide)
      rw [hv]
      dsimp only
      have hskip : skipWs (itemsSep ind ([] : List Json) closeInd rest) = ']' :: rest := by
        rw [show itemsSep ind ([] : List Json) closeInd rest
            = ('\n' :: indentPad closeInd) ++ (']' :: rest) from by simp [itemsSep]]
        rw [skipWs_append_ws _ _ ?hwsa]
        case hwsa =>
          intro c hc
          simp only [List.mem_cons] at hc
          rcases hc with rfl | hc
          · decide
          · exact indentPad_ws _ c hc
        exact skipWs_cons_neg _ _ (by decide)
      rw [hskip]
      dsimp only
      rw [if_neg (by decide), if_pos rfl]
    | cons y ys =>
      have hwy : wfJson y = true ∧ wfList ys = true := by
        have h2 : (wfJson y && wfList ys) = true := by simpa [wfList] using hwfxs
        rw [Bool.and_eq_true] at h2
        exact h2
      have hfy : needItemsFuel (y :: ys) ≤ f := by
        simp [needItemsFuel] at hfuel ⊢
        omega
      have hv := (ih f (by omega)).1 x ind pre (itemsSep ind (y :: ys) closeInd rest)
        hwfx hx hpre
        (by
          intro c cs hcs
          rw [show itemsSep ind (y :: ys) closeInd rest
            = ',' :: '\n' :: (indentPad ind ++ dumpsVal ind y ++ itemsSep ind ys closeInd rest)
            from by simp [itemsSep]] at hcs
          injection hcs with h1 h2
          rw [← h1]
          decide)
      rw [hv]
      dsimp only
      rw [show itemsSep ind (y :: ys) closeInd rest
          = ',' :: ('\n' :: (indentPad ind ++ (dumpsVal ind y ++ itemsSep ind ys closeInd rest)))
        from by simp [itemsSep]]
      rw [skipWs_cons_neg _ _ (by decide)]
      dsimp only
      rw [if_pos rfl]
      rw [show ('\n' :: (indentPad ind ++ (dumpsVal ind y ++ itemsSep ind ys closeInd rest)))
          = ('\n' :: indentPad ind) ++ (dumpsVal ind y ++ itemsSep ind ys closeInd rest)
        from by simp]
      have hq2 := (ih f (by omega)).2.1 y ys ind closeInd rest (acc ++ [x])
        ('\n' :: indentPad ind) hwy.1 hwy.2 hfy
        (by
          intro c hc
          simp only [List.mem_cons] at hc
          rcases hc with rfl | hc
          · decide
          · exact indentPad_ws _ c hc)
      rw [hq2]
      simp
  · -- R: object members
    intro k v ms ind closeInd rest acc pre hwfv hwfms hfuel hpre
    obtain ⟨f, rfl⟩ : ∃ f, fuel = f + 1 := by
      refine ⟨fuel - 1, ?_⟩
      simp [needMembersFuel] at hfuel
      omega
    have hneedv : needFuel v ≤ f := by
      simp [needMembersFuel] at hfuel
      omega
    rw [parseMembers.eq_def]
    dsimp only
    have hskip0 : skipWs (pre ++ ((dumpString k ++ ':' :: ' ' :: dumpsVal ind v)
          ++ membersSep ind ms closeInd rest))
        = '"' :: ((escapeString k ++ ['"'])
            ++ (':' :: ' ' :: (dumpsVal ind v ++ membersSep ind ms closeInd rest))) := by
      rw [skipWs_append_ws _ _ hpre]
      rw [show (dumpString k ++ ':' :: ' ' :: dumpsVal ind v)
            ++ membersSep ind ms closeInd rest
          = '"' :: ((escapeString k ++ ['"'])
            ++ (':' :: ' ' :: (dumpsVal ind v ++ membersSep ind ms closeInd rest)))
        from by simp [dumpString]]
      exact skipWs_cons_neg _ _ (by decide)
    rw [hskip0]
    dsimp only
    rw [if_pos rfl]
    rw [show (escapeString k ++ ['"'])
          ++ (':' :: ' ' :: (dumpsVal ind v ++ membersSep ind ms closeInd rest))
        = escapeString k
          ++ '"' :: (':' :: ' ' :: (dumpsVal ind v ++ membersSep ind ms closeInd rest))
      from by simp]
    rw [parse_escapeString]
    dsimp only
    rw [skipWs_cons_neg _ _ (by decide)]
    dsimp only
    rw [if_pos rfl]
    rw [show (' ' :: (dumpsVal ind v ++ membersSep ind ms closeInd rest))
        = [' '] ++ (dumpsVal ind v ++ membersSep ind ms closeInd rest) from rfl]
    have hval := (ih f (by omega)).1 v ind [' '] (membersSep ind ms closeInd rest)
      hwfv hneedv (by intro c hc; simp only [List.mem_singleton] at hc; subst hc; decide)
      (by
        intro c cs hcs
        cases ms with
        | nil =>
          rw [show membersSep ind ([] : List (Text × Json)) closeInd rest
            = '\n' :: (indentPad closeInd ++ '\x7d' :: rest) from by simp [membersSep]] at hcs
          injection hcs with h1 h2
          rw [← h1]
          decide
        | cons m ms2 =>
          obtain ⟨k2, v2⟩ := m
          rw [show membersSep ind ((k2, v2) :: ms2) closeInd rest
            = ',' :: '\n' :: (indentPad ind ++ (dumpString k2 ++ ':' :: ' ' :: dumpsVal ind v2)
              ++ membersSep ind ms2 closeInd rest) from by simp [membersSep]] at hcs
          injection hcs with h1 h2
          rw [← h1]
          decide)
    rw [hval]
    dsimp only
    cases ms with
    | nil =>
      have hskip : skipWs (membersSep ind ([] : List (Text × Json)) closeInd rest)
          = '\x7d' :: rest := by
        rw [show membersSep ind ([] : List (Text × Json)) closeInd rest
            = ('\n' :: indentPad closeInd) ++ ('\x7d' :: rest) from by simp [membersSep]]
        rw [skipWs_append_ws _ _ ?hwsb]
        case hwsb =>
          intro c hc
          simp only [List.mem_cons] at hc
          rcases hc with rfl | hc
          · decide
          · exact indentPad_ws _ c hc
        exact skipWs_cons_neg _ _ (by decide)
      rw [hskip]
      dsimp only
      rw [if_neg (by decide), if_pos rfl]
      simp [setKeyFold]
    | cons m ms2 =>
      obtain ⟨k2, v2⟩ := m
      have hwm : wfJson v2 = true ∧ wfMembers ms2 = true := by
        have h2 : (wfJson v2 && wfMembers ms2) = true := by simpa [wfMembers] using hwfms
        rw [Bool.and_eq_true] at h2
        exact h2
      have hfm : needMembersFuel ((k2, v2) :: ms2) ≤ f := by
        simp [needMembersFuel] at hfuel ⊢
        omega
      rw [show membersSep ind ((k2, v2) :: ms2) closeInd rest
          = ',' :: ('\n' :: (indentPad ind
            ++ ((dumpString k2 ++ ':' :: ' ' :: dumpsVal ind v2)
              ++ membersSep ind ms2 closeInd rest))) from by simp [membersSep]]
      rw [skipWs_cons_neg _ _ (by decide)]
      dsimp only
      rw [if_pos rfl]
      rw [show ('\n' :: (indentPad ind
            ++ ((dumpString k2 ++ ':' :: ' ' :: dumpsVal ind v2)
              ++ membersSep ind ms2 closeInd rest)))
          = ('\n' :: indentPad ind)
            ++ ((dumpString k2 ++ ':' :: ' ' :: dumpsVal ind v2)
              ++ membersSep ind ms2 closeInd rest) from by simp]
      have hr2 := (ih f (by omega)).2.2 k2 v2 ms2 ind closeInd rest (setKey acc k v)
        ('\n' :: indentPad ind) hwm.1 hwm.2 hfm
        (by
          intro c hc
          simp only [List.mem_cons] at hc
          rcases hc with rfl | hc
          · decide
          · exact indentPad_ws _ c hc)
      rw [hr2]
      simp [setKeyFold]


lemma length_dumpString_ge (k : Text) : 2 ≤ (dumpString k).length := by
  simp [dumpString]

lemma needFuel_le_length (n : Nat) :
    (∀ j ind, sizeOf j ≤ n → wfJson j = true → needFuel j ≤ (dumpsVal ind j).length) ∧
    (∀ x xs ind, 1 + sizeOf x + sizeOf xs ≤ n → 1 ≤ ind → wfJson x = true →
      wfList xs = true → needItemsFuel (x :: xs) ≤ (dumpsItems ind x xs).length) ∧
    (∀ k v ms ind, 1 + sizeOf v + sizeOf ms ≤ n → wfJson v = true →
      wfMembers ms = true →
      needMembersFuel ((k, v) :: ms) ≤ (dumpsMembers ind k v ms).length) := by
  induction n using Nat.strong_induction_on with
  | _ n ih =>
    refine ⟨?_, ?_, ?_⟩
    · intro j ind hsz hwf
      cases j with
      | null => simp [needFuel, dumpsVal]
      | bool b => cases b <;> simp [needFuel, dumpsVal]
      | num t =>
        cases t with
        | nil => simp [wfJson, isWfNumToken] at hwf
        | cons c cs => simp [needFuel, dumpsVal]
      | str s =>
        have h2 := length_dumpString_ge s
        simp [needFuel, dumpsVal]
        omega
      | arr xs =>
        cases xs with
        | nil => simp [needFuel, needItemsFuel, dumpsVal]
        | cons x xs2 =>
          have hm : 1 + sizeOf x + sizeOf xs2 < n := by
            simp at hsz; omega
          have hwx : wfJson x = true ∧ wfList xs2 = true := by
            simp [wfJson, wfList, Bool.and_eq_true] at hwf
            exact hwf
          have hq := (ih _ hm).2.1 x xs2 (ind + 2) (le_refl _) (by omega) hwx.1 hwx.2
          have h1 : needFuel (Json.arr (x :: xs2)) = 2 + needItemsFuel (x :: xs2) := by
            simp [needFuel]
          rw [h1]
          simp only [dumpsVal, indentPad, List.length_cons, List.length_append,
            List.length_replicate]
          omega
      | obj ms =>
        cases ms with
        | nil => simp [needFuel, needMembersFuel, dumpsVal]
        | cons kv ms2 =>
          obtain ⟨k, v⟩ := kv
          have hm : 1 + sizeOf v + sizeOf ms2 < n := by
            simp at hsz; omega
          have hwv : wfJson v = true ∧ wfMembers ms2 = true := by
            simp [wfJson, wfMembers, Bool.and_eq_true] at hwf
            exact ⟨hwf.2.1, hwf.2.2⟩
          have hr := (ih _ hm).2.2 k v ms2 (ind + 2) (le_refl _) hwv.1 hwv.2
          have h1 : needFuel (Json.obj ((k, v) :: ms2))
              = 2 + needMembersFuel ((k, v) :: ms2) := by
            simp [needFuel]
          rw [h1]
          simp only [dumpsVal, indentPad, List.length_cons, List.length_append,
            List.length_replicate]
          omega
    · intro x xs ind hsz hind hwx hwxs
      cases xs with
      | nil =>
        have hm : sizeOf x < n := by simp at hsz; omega
        have hp := (ih _ hm).1 x ind (le_refl _) hwx
        have h1 : needItemsFuel (x :: ([] : List Json)) = 1 + needFuel x := by
          simp [needItemsFuel]
        rw [h1]
        simp only [dumpsItems, indentPad, List.length_append, List.length_replicate]
        omega
      | cons y ys =>
        have hmx : sizeOf x < n := by simp at hsz; omega
        have hmy : 1 + sizeOf y + sizeOf ys < n := by simp at hsz; omega
        have hwys : wfJson y = true ∧ wfList ys = true := by
          simp [wfList, Bool.and_eq_true] at hwxs
          exact hwxs
        have hp := (ih _ hmx).1 x ind (le_refl _) hwx
        have hq := (ih _ hmy).2.1 y ys ind (le_refl _) hind hwys.1 hwys.2
        have h1 : needItemsFuel (x :: y :: ys)
            = 1 + needFuel x + needItemsFuel (y :: ys) := by
          simp [needItemsFuel]
        rw [h1]
        simp only [dumpsItems, indentPad, List.length_append, List.length_cons,
          List.length_replicate]
        omega
    · intro k v ms ind hsz hwv hwms
      cases ms with
      | nil =>
        have hm : sizeOf v < n := by simp at hsz; omega
        have hp := (ih _ hm).1 v ind (le_refl _) hwv
        have h2 := length_dumpString_ge k
        have h1 : needMembersFuel ((k, v) :: ([] : List (Text × Json)))
            = 1 + needFuel v := by
          simp [needMembersFuel]
        rw [h1]
        simp only [dumpsMembers, indentPad, List.length_append, List.length_cons,
          List.length_replicate]
        omega
      | cons kv2 ms2 =>
        obtain ⟨k2, v2⟩ := kv2
        have hmv : sizeOf v < n := by simp at hsz; omega
        have hmm : 1 + sizeOf v2 + sizeOf ms2 < n := by simp at hsz; omega
        have hwv2 : wfJson v2 = true ∧ wfMembers ms2 = true := by
          simp [wfMembers, Bool.and_eq_true] at hwms
          exact hwms
        have hp := (ih _ hmv).1 v ind (le_refl _) hwv
        have hr := (ih _ hmm).2.2 k2 v2 ms2 ind (le_refl _) hwv2.1 hwv2.2
        have h1 : needMembersFuel ((k, v) :: (k2, v2) :: ms2)
            = 1 + needFuel v + needMembersFuel ((k2, v2) :: ms2) := by
          simp [needMembersFuel]
        rw [h1]
        simp only [dumpsMembers, indentPad, List.length_append, List.length_cons,
          List.length_replicate]
        omega

lemma needFuel_le (j : Json) (ind : Nat) (hwf : wfJson j = true) :
    needFuel j ≤ (dumpsVal ind j).length :=
  (needFuel_le_length (sizeOf j)).1 j ind (le_refl _) hwf

lemma loads_dumps (j : Json) (hwf : wfJson j = true) : loads (dumps j) = some j := by
  have h := (parse_dumps_all ((dumps j).length + 1)).1 j 0 [] [] hwf
    (by have := needFuel_le j 0 hwf; simp [dumps] at this ⊢; omega)
    (by intro c hc; cases hc)
    (by intro c cs hcs; cases hcs)
  simp only [List.nil_append, List.append_nil] at h
  unfold loads
  simp only [dumps] at h ⊢
  rw [h]
  simp [skipWs]

lemma lookupKey_setKey_self (m : List (Text × Json)) (k : Text) (v : Json) :
    lookupKey (setKey m k v) k = some v := by
  induction m with
  | nil => simp [setKey, lookupKey]
  | cons p ps ih =>
    obtain ⟨k2, v2⟩ := p
    by_cases h : k2 = k
    · simp [setKey, h, lookupKey]
    · simp only [setKey, if_neg h, lookupKey]
      exact ih

lemma lookupKey_setKey_ne (m : List (Text × Json)) (k k2 : Text) (v : Json)
    (h : ¬ k2 = k) : lookupKey (setKey m k v) k2 = lookupKey m k2 := by
  induction m with
  | nil =>
    simp only [setKey, lookupKey]
    rw [if_neg (fun he => h he.symm)]
  | cons p ps ih =>
    obtain ⟨k3, v3⟩ := p
    by_cases h3 : k3 = k
    · subst h3
      rw [show setKey ((k3, v3) :: ps) k3 v = (k3, v) :: ps from by simp [setKey]]
      simp only [lookupKey]
      rw [if_neg (fun he => h he.symm), if_neg (fun he => h he.symm)]
    · simp only [setKey, if_neg h3, lookupKey]
      by_cases h4 : k3 = k2
      · rw [if_pos h4, if_pos h4]
      · rw [if_neg h4, if_neg h4, ih]

lemma lookupKey_eq_none_of_not_mem (m : List (Text × Json)) (k : Text)
    (h : ¬ k ∈ m.map Prod.fst) : lookupKey m k = none := by
  induction m with
  | nil => rfl
  | cons p ps ih =>
    obtain ⟨k2, v2⟩ := p
    have hne : ¬ k2 = k := fun he => h (by simp [he])
    simp only [lookupKey]
    rw [if_neg hne]
    exact ih (fun hm => h (by simp [hm]))

lemma eraseKey_sublist (m : List (Text × Json)) (k : Text) :
    (eraseKey m k).Sublist m := by
  induction m with
  | nil => simp [eraseKey]
  | cons p ps ih =>
    obtain ⟨k2, v2⟩ := p
    simp only [eraseKey]
    by_cases h : k2 = k
    · rw [if_pos h]
      exact List.sublist_cons_self _ _
    · rw [if_neg h]
      exact List.Sublist.cons₂ _ ih

lemma lookupKey_eraseKey_self (m : List (Text × Json)) (k : Text)
    (hnd : (m.map Prod.fst).Nodup) : lookupKey (eraseKey m k) k = none := by
  induction m with
  | nil => rfl
  | cons p ps ih =>
    obtain ⟨k2, v2⟩ := p
    rw [List.map_cons, List.nodup_cons] at hnd
    simp only [eraseKey]
    by_cases h : k2 = k
    · rw [if_pos h]
      subst h
      exact lookupKey_eq_none_of_not_mem ps k2 hnd.1
    · rw [if_neg h]
      simp only [lookupKey]
      rw [if_neg h]
      exact ih hnd.2

lemma wfMembers_setKey (m : List (Text × Json)) (k : Text) (v : Json)
    (hm : wfMembers m = true) (hv : wfJson v = true) :
    wfMembers (setKey m k v) = true := by
  induction m with
  | nil => simp [setKey, wfMembers, hv]
  | cons p ps ih =>
    obtain ⟨k2, v2⟩ := p
    have hm2 : wfJson v2 = true ∧ wfMembers ps = true := by
      simp [wfMembers, Bool.and_eq_true] at hm
      exact hm
    by_cases h : k2 = k
    · rw [show setKey ((k2, v2) :: ps) k v = (k, v) :: ps from by simp [setKey, h]]
      simp [wfMembers, hv, hm2.2]
    · simp only [setKey, if_neg h]
      simp [wfMembers, hm2.1, ih hm2.2]

lemma wfMembers_eraseKey (m : List (Text × Json)) (k : Text)
    (hm : wfMembers m = true) : wfMembers (eraseKey m k) = true := by
  induction m with
  | nil => simp [eraseKey, wfMembers]
  | cons p ps ih =>
    obtain ⟨k2, v2⟩ := p
    have hm2 : wfJson v2 = true ∧ wfMembers ps = true := by
      simp [wfMembers, Bool.and_eq_true] at hm
      exact hm
    simp only [eraseKey]
    by_cases h : k2 = k
    · rw [if_pos h]
      exact hm2.2
    · rw [if_neg h]
      simp [wfMembers, hm2.1, ih hm2.2]

lemma mem_keys_setKey (m : List (Text × Json)) (k : Text) (v : Json) (k2 : Text) :
    k2 ∈ (setKey m k v).map Prod.fst ↔ k2 ∈ m.map Prod.fst ∨ k2 = k := by
  induction m with
  | nil => simp [setKey]
  | cons p ps ih =>
    obtain ⟨k3, v3⟩ := p
    by_cases h : k3 = k
    · subst h
      rw [show setKey ((k3, v3) :: ps) k3 v = (k3, v) :: ps from by simp [setKey]]
      simp only [List.map_cons, List.mem_cons]
      tauto
    · simp only [setKey, if_neg h, List.map_cons, List.mem_cons, ih]
      tauto

lemma nodup_keys_setKey (m : List (Text × Json)) (k : Text) (v : Json)
    (h : (m.map Prod.fst).Nodup) : ((setKey m k v).map Prod.fst).Nodup := by
  induction m with
  | nil => simp [setKey]
  | cons p ps ih =>
    obtain ⟨k3, v3⟩ := p
    rw [List.map_cons, List.nodup_cons] at h
    by_cases he : k3 = k
    · subst he
      rw [show setKey ((k3, v3) :: ps) k3 v = (k3, v) :: ps from by simp [setKey]]
      rw [List.map_cons, List.nodup_cons]
      exact ⟨h.1, h.2⟩
    · simp only [setKey, if_neg he, List.map_cons, List.nodup_cons]
      refine ⟨?_, ih h.2⟩
      intro hmem
      rcases (mem_keys_setKey ps k v k3).mp hmem with hm | hm
      · exact h.1 hm
      · exact he hm

lemma nodup_keys_eraseKey (m : List (Text × Json)) (k : Text)
    (h : (m.map Prod.fst).Nodup) : ((eraseKey m k).map Prod.fst).Nodup :=
  List.Nodup.sublist (List.Sublist.map Prod.fst (eraseKey_sublist m k)) h

lemma lookupKey_wf (m : List (Text × Json)) (k : Text) (j : Json)
    (hm : wfMembers m = true) (h : lookupKey m k = some j) : wfJson j = true := by
  induction m with
  | nil => simp [lookupKey] at h
  | cons p ps ih =>
    obtain ⟨k2, v2⟩ := p
    have hm2 : wfJson v2 = true ∧ wfMembers ps = true := by
      simp [wfMembers, Bool.and_eq_true] at hm
      exact hm
    simp only [lookupKey] at h
    by_cases he : k2 = k
    · rw [if_pos he] at h
      injection h with h2
      rw [← h2]
      exact hm2.1
    · rw [if_neg he] at h
      exact ih hm2.2 h

lemma wfJson_obj_iff (m : List (Text × Json)) :
    wfJson (Json.obj m) = true ↔ (m.map Prod.fst).Nodup ∧ wfMembers m = true := by
  simp [wfJson, Bool.and_eq_true, distinctKeysB_eq_true_iff]

lemma pyStrip_eq_of (a b : Char) (mid : Text) (ha : isPySpace a = false)
    (hb : isPySpace b = false) :
    pyStrip (a :: (mid ++ [b])) = a :: (mid ++ [b]) := by
  have h1 : rstrip (a :: (mid ++ [b])) = a :: (mid ++ [b]) := by
    simp only [rstrip]
    have h2 : (a :: (mid ++ [b])).reverse = b :: (mid.reverse ++ [a]) := by simp
    rw [h2, List.dropWhile_cons, hb]
    simp
  simp only [pyStrip, h1, List.dropWhile_cons, ha]
  simp

lemma dumps_obj_shape (m : List (Text × Json)) :
    ∃ mid, dumps (Json.obj m) = '\x7b' :: (mid ++ ['\x7d']) := by
  cases m with
  | nil => exact ⟨[], by simp [dumps, dumpsVal]⟩
  | cons kv ms =>
    obtain ⟨k, v⟩ := kv
    refine ⟨'\n' :: (dumpsMembers 2 k v ms ++ ['\n']), ?_⟩
    simp [dumps, dumpsVal, indentPad]

lemma pyStrip_dumps_obj (m : List (Text × Json)) :
    pyStrip (dumps (Json.obj m)) = dumps (Json.obj m) := by
  obtain ⟨mid, hm⟩ := dumps_obj_shape m
  rw [hm]
  exact pyStrip_eq_of _ _ _ (by decide) (by decide)

lemma set_memory_dumps_obj (m : List (Text × Json))
    (h : (dumps (Json.obj m)).length ≤ MEMORY_LIMIT) :
    set_memory (dumps (Json.obj m)) = dumps (Json.obj m) := by
  simp only [set_memory, pyStrip_dumps_obj]
  rw [if_neg (by omega)]

lemma get_memory_dumps (j : Json) (hwf : wfJson j = true) :
    get_memory (dumps j) = dumps j := by
  obtain ⟨c, cs, heq, -, -, -⟩ := dumpsVal_head 0 j hwf
  simp [get_memory, dumps, heq]

lemma protSub_wf (m : List (Text × Json)) (hwm : wfMembers m = true) :
    wfJson (Json.obj (protSub m)) = true := by
  rw [wfJson_obj_iff]
  cases hl : lookupKey m ("protected_memory".data) with
  | none => simp [protSub, hl, wfMembers]
  | some j =>
    cases j with
    | obj p =>
      have hj := lookupKey_wf m _ _ hwm hl
      rw [wfJson_obj_iff] at hj
      simpa [protSub, hl] using hj
    | null => simp [protSub, hl, wfMembers]
    | bool b => simp [protSub, hl, wfMembers]
    | num t => simp [protSub, hl, wfMembers]
    | str s2 => simp [protSub, hl, wfMembers]
    | arr xs => simp [protSub, hl, wfMembers]

lemma applyFieldEdit_wf (p : List (Text × Json)) (k : Text) (value : Option Text)
    (hwf : wfJson (Json.obj p) = true) :
    wfJson (Json.obj (applyFieldEdit p k value)) = true := by
  rw [wfJson_obj_iff] at hwf ⊢
  cases value with
  | none =>
    simp only [applyFieldEdit]
    exact ⟨nodup_keys_eraseKey p k hwf.1, wfMembers_eraseKey p k hwf.2⟩
  | some w =>
    simp only [applyFieldEdit]
    exact ⟨nodup_keys_setKey p k _ hwf.1, wfMembers_setKey p k _ hwf.2 (by simp [wfJson])⟩

/-- C4 (amended): when the stored memory parses as a well-formed JSON object
and each reserialized result stays within MEMORY_LIMIT characters,
`edit_memory` persists exactly the updated object, `get_memory` parses back
to it, the field maps to the new value (respectively is absent after a
removal), and `edit_protected_memory` rewrites only the `protected_memory`
entry, leaving every other top-level field unchanged. -/
theorem memory_edit_laws (stored : Text) (m : List (Text × Json)) (k : Text)
    (hload : loads (get_memory stored) = some (Json.obj m))
    (hwf : wfJson (Json.obj m) = true) :
    (∀ v : Text,
      (dumps (Json.obj (setKey m k (Json.str v)))).length ≤ MEMORY_LIMIT →
      edit_memory stored k (some v)
          = some (dumps (Json.obj (setKey m k (Json.str v)))) ∧
      loads (get_memory (dumps (Json.obj (setKey m k (Json.str v)))))
          = some (Json.obj (setKey m k (Json.str v))) ∧
      lookupKey (setKey m k (Json.str v)) k = some (Json.str v)) ∧
    ((dumps (Json.obj (eraseKey m k))).length ≤ MEMORY_LIMIT →
      edit_memory stored k none = some (dumps (Json.obj (eraseKey m k))) ∧
      loads (get_memory (dumps (Json.obj (eraseKey m k))))
          = some (Json.obj (eraseKey m k)) ∧
      lookupKey (eraseKey m k) k = none) ∧
    (∀ value : Option Text,
      (dumps (Json.obj (setKey m ("protected_memory".data)
          (Json.obj (applyFieldEdit (protSub m) k value))))).length ≤ MEMORY_LIMIT →
      edit_protected_memory stored k value
          = some (dumps (Json.obj (setKey m ("protected_memory".data)
              (Json.obj (applyFieldEdit (protSub m) k value))))) ∧
      loads (get_memory (dumps (Json.obj (setKey m ("protected_memory".data)
              (Json.obj (applyFieldEdit (protSub m) k value))))))
          = some (Json.obj (setKey m ("protected_memory".data)
              (Json.obj (applyFieldEdit (protSub m) k value)))) ∧
      lookupKey (setKey m ("protected_memory".data)
              (Json.obj (applyFieldEdit (protSub m) k value)))
          ("protected_memory".data)
          = some (Json.obj (applyFieldEdit (protSub m) k value)) ∧
      (∀ k2, ¬ k2 = "protected_memory".data →
        lookupKey (setKey m ("protected_memory".data)
            (Json.obj (applyFieldEdit (protSub m) k value))) k2
          = lookupKey m k2)) := by
  obtain ⟨hnd, hwm⟩ := (wfJson_obj_iff m).mp hwf
  refine ⟨?_, ?_, ?_⟩
  · intro v hlen
    have hwf2 : wfJson (Json.obj (setKey m k (Json.str v))) = true :=
      (wfJson_obj_iff _).mpr ⟨nodup_keys_setKey m k _ hnd,
        wfMembers_setKey m k _ hwm (by simp [wfJson])⟩
    refine ⟨?_, ?_, lookupKey_setKey_self m k _⟩
    · simp only [edit_memory, hload]
      rw [show applyFieldEdit m k (some v) = setKey m k (Json.str v) from rfl]
      rw [set_memory_dumps_obj _ hlen]
    · rw [get_memory_dumps _ hwf2]
      exact loads_dumps _ hwf2
  · intro hlen
    have hwf2 : wfJson (Json.obj (eraseKey m k)) = true :=
      (wfJson_obj_iff _).mpr ⟨nodup_keys_eraseKey m k hnd, wfMembers_eraseKey m k hwm⟩
    refine ⟨?_, ?_, lookupKey_eraseKey_self m k hnd⟩
    · simp only [edit_memory, hload]
      rw [show applyFieldEdit m k none = eraseKey m k from rfl]
      rw [set_memory_dumps_obj _ hlen]
    · rw [get_memory_dumps _ hwf2]
      exact loads_dumps _ hwf2
  · intro value hlen
    have hwfi : wfJson (Json.obj (applyFieldEdit (protSub m) k value)) = true :=
      applyFieldEdit_wf _ _ _ (protSub_wf m hwm)
    have hwf2 : wfJson (Json.obj (setKey m ("protected_memory".data)
        (Json.obj (applyFieldEdit (protSub m) k value)))) = true :=
      (wfJson_obj_iff _).mpr ⟨nodup_keys_setKey m _ _ hnd,
        wfMembers_setKey m _ _ hwm hwfi⟩
    refine ⟨?_, ?_, lookupKey_setKey_self m _ _,
      fun k2 h2 => lookupKey_setKey_ne m _ k2 _ h2⟩
    · simp only [edit_protected_memory, hload]
      show some (set_memory (dumps (Json.obj (setKey m ("protected_memory".data)
          (Json.obj (applyFieldEdit (protSub m) k value)))))) = _
      rw [set_memory_dumps_obj _ hlen]
    · rw [get_memory_dumps _ hwf2]
      exact loads_dumps _ hwf2

lemma escapeString_replicate_x (n : Nat) :
    escapeString (List.replicate n 'x') = List.replicate n 'x' := by
  induction n with
  | zero => rfl
  | succ n ih =>
    rw [List.replicate_succ, escapeString_cons, ih]
    rw [show escapeChar 'x' = ['x'] from by decide]
    rfl

lemma parseStringBody_replicate_x (n : Nat) :
    parseStringBody (List.replicate n 'x') = none := by
  induction n with
  | zero =>
    rw [show List.replicate 0 'x' = ([] : Text) from rfl]
    rw [parseStringBody.eq_def]
  | succ n ih =>
    rw [List.replicate_succ]
    rw [parseStringBody_raw 'x' _ (by decide) (by decide) (by decide)]
    rw [ih]
    rfl

lemma set_memory_dumps_obj_long (m : List (Text × Json))
    (h : MEMORY_LIMIT < (dumps (Json.obj m)).length) :
    set_memory (dumps (Json.obj m)) = (dumps (Json.obj m)).take MEMORY_LIMIT := by
  simp only [set_memory, pyStrip_dumps_obj]
  rw [if_pos h]

lemma loads_truncated_none (n : Nat) :
    loads ('\x7b' :: '\n' :: ' ' :: ' ' :: '"' :: 'a' :: '"' :: ':' :: ' ' :: '"'
        :: List.replicate n 'x') = none := by
  have hinner : ∀ f : Nat, parseValue (f + 1) (' ' :: '"' :: List.replicate n 'x')
      = none := by
    intro f
    rw [parseValue.eq_def]
    dsimp only
    rw [show (' ' :: '"' :: List.replicate n 'x')
        = [' '] ++ ('"' :: List.replicate n 'x') from rfl]
    rw [skipWs_append_ws [' '] _ (by decide), skipWs_cons_neg _ _ (by decide)]
    dsimp only
    rw [if_neg (by decide), if_neg (by decide), if_pos rfl]
    rw [parseStringBody_replicate_x]
    rfl
  have h4 : ∀ f : Nat, parseValue (f + 4)
      ('\x7b' :: '\n' :: ' ' :: ' ' :: '"' :: 'a' :: '"' :: ':' :: ' ' :: '"'
        :: List.replicate n 'x') = none := by
    intro f
    rw [show f + 4 = (f + 3) + 1 from by omega]
    rw [parseValue.eq_def]
    dsimp only
    rw [skipWs_cons_neg _ _ (by decide)]
    dsimp only
    rw [if_pos rfl]
    rw [show f + 3 = (f + 2) + 1 from by omega]
    rw [parseObjBody.eq_def]
    dsimp only
    rw [show ('\n' :: ' ' :: ' ' :: '"' :: 'a' :: '"' :: ':' :: ' ' :: '"'
        :: List.replicate n 'x')
        = ['\n', ' ', ' ']
          ++ ('"' :: 'a' :: '"' :: ':' :: ' ' :: '"' :: List.replicate n 'x')
        from rfl]
    rw [skipWs_append_ws ['\n', ' ', ' '] _ (by decide), skipWs_cons_neg _ _ (by decide)]
    dsimp only
    rw [if_neg (by decide)]
    rw [show f + 2 = (f + 1) + 1 from by omega]
    rw [parseMembers.eq_def]
    dsimp only
    rw [skipWs_cons_neg _ _ (by decide)]
    dsimp only
    rw [if_pos rfl]
    rw [parseStringBody_raw 'a' _ (by decide) (by decide) (by decide),
      parseStringBody_quote, Option.map_some']
    dsimp only
    rw [skipWs_cons_neg _ _ (by decide)]
    dsimp only
    rw [if_pos rfl]
    rw [hinner f]
  have hlen : ('\x7b' :: '\n' :: ' ' :: ' ' :: '"' :: 'a' :: '"' :: ':' :: ' ' :: '"'
      :: List.replicate n 'x').length = n + 10 := by
    simp only [List.length_cons, List.length_replicate]
  simp only [loads]
  rw [hlen]
  rw [show n + 10 + 1 = (n + 7) + 4 from by omega]
  rw [h4]

lemma loads_empty_braces : loads (get_memory ['\x7b', '\x7d']) = some (Json.obj []) := by
  rw [show get_memory ['\x7b', '\x7d'] = ['\x7b', '\x7d'] from by simp [get_memory]]
  rw [show (['\x7b', '\x7d'] : Text) = dumps (Json.obj []) from by simp [dumps, dumpsVal]]
  exact loads_dumps _ (by simp [wfJson, distinctKeysB, wfMembers])

/-- C4 counterexample: without the length bound the original claim fails.
Setting field a of the empty-object memory to a 7990-character value makes
`set_memory` truncate the 8003-character serialization at MEMORY_LIMIT =
8000 characters, cutting off the closing quote, newline and brace, so the
stored memory no longer parses as JSON at all. -/
theorem memory_edit_truncation_counterexample :
    edit_memory ['\x7b', '\x7d'] ['a'] (some (List.replicate 7990 'x'))
        = some ('\x7b' :: '\n' :: ' ' :: ' ' :: '"' :: 'a' :: '"' :: ':' :: ' ' :: '"'
            :: List.replicate 7990 'x') ∧
    loads (get_memory ('\x7b' :: '\n' :: ' ' :: ' ' :: '"' :: 'a' :: '"' :: ':' :: ' '
        :: '"' :: List.replicate 7990 'x')) = none := by
  have hdump : ∀ n : Nat, dumps (Json.obj [(['a'], Json.str (List.replicate n 'x'))])
      = ['\x7b', '\n', ' ', ' ', '"', 'a', '"', ':', ' ', '"']
          ++ (List.replicate n 'x' ++ ['"', '\n', '\x7d']) := by
    intro n
    have ha : escapeString ['a'] = ['a'] := rfl
    simp [dumps, dumpsVal, dumpsMembers, dumpString, indentPad, escapeString_replicate_x,
      ha]
  have hlen2 : ∀ n : Nat, ((['\x7b', '\n', ' ', ' ', '"', 'a', '"', ':', ' ', '"']
      ++ (List.replicate n 'x' ++ ['"', '\n', '\x7d'])).length) = n + 13 := by
    intro n
    simp only [List.length_append, List.length_cons, List.length_replicate,
      List.length_nil]
    omega
  have htake : ∀ n : Nat, ((['\x7b', '\n', ' ', ' ', '"', 'a', '"', ':', ' ', '"']
      ++ (List.replicate n 'x' ++ ['"', '\n', '\x7d'])).take (n + 10) : Text)
      = ['\x7b', '\n', ' ', ' ', '"', 'a', '"', ':', ' ', '"']
          ++ List.replicate n 'x' := by
    intro n
    rw [← List.append_assoc]
    rw [show n + 10 = ((['\x7b', '\n', ' ', ' ', '"', 'a', '"', ':', ' ', '"']
        ++ List.replicate n 'x').length) from by
      simp only [List.length_append, List.length_cons, List.length_replicate,
        List.length_nil]
      omega]
    exact List.take_left _ _
  constructor
  · simp only [edit_memory, loads_empty_braces]
    rw [show applyFieldEdit [] ['a'] (some (List.replicate 7990 'x'))
        = [(['a'], Json.str (List.replicate 7990 'x'))] from rfl]
    rw [set_memory_dumps_obj_long _ (by
      rw [hdump 7990, hlen2 7990, show (MEMORY_LIMIT : Nat) = 8000 from rfl]
      omega)]
    rw [hdump 7990]
    rw [show (MEMORY_LIMIT : Nat) = 7990 + 10 from by rfl]
    rw [htake 7990]
    rfl
  · rw [show get_memory ('\x7b' :: '\n' :: ' ' :: ' ' :: '"' :: 'a' :: '"' :: ':' :: ' '
        :: '"' :: List.replicate 7990 'x')
        = ('\x7b' :: '\n' :: ' ' :: ' ' :: '"' :: 'a' :: '"' :: ':' :: ' '
            :: '"' :: List.replicate 7990 'x') from rfl]
    exact loads_truncated_none 7990

/-- C4 witness: a concrete instance of `memory_edit_laws` at the
empty-object memory, field a, value b. -/
theorem memory_edit_laws_witness :
    (edit_memory ['\x7b', '\x7d'] ['a'] (some ['b'])
        = some (dumps (Json.obj (setKey [] ['a'] (Json.str ['b'])))) ∧
      loads (get_memory (dumps (Json.obj (setKey [] ['a'] (Json.str ['b'])))))
        = some (Json.obj (setKey [] ['a'] (Json.str ['b']))) ∧
      lookupKey (setKey [] ['a'] (Json.str ['b'])) ['a'] = some (Json.str ['b'])) := by
  have hwf : wfJson (Json.obj ([] : List (Text × Json))) = true := by
    simp [wfJson, distinctKeysB, wfMembers]
  exact (memory_edit_laws ['\x7b', '\x7d'] [] ['a'] loads_empty_braces hwf).1 ['b'] (by
    simp [dumps, dumpsVal, dumpsMembers, dumpString, escapeString, escapeChar,
      indentPad, setKey, MEMORY_LIMIT])

lemma wf_protected_example : wfJson (Json.obj [(("protected_memory".data),
    Json.obj [(['k'], Json.str ['v'])])]) = true := by
  simp [wfJson, wfMembers, distinctKeysB]

lemma loads_protected_example : loads (get_memory (dumps (Json.obj
    [(("protected_memory".data), Json.obj [(['k'], Json.str ['v'])])])))
    = some (Json.obj [(("protected_memory".data),
      Json.obj [(['k'], Json.str ['v'])])]) := by
  rw [get_memory_dumps _ wf_protected_example]
  exact loads_dumps _ wf_protected_example

lemma edit_memory_obj_eq (stored : Text) (m : List (Text × Json)) (k : Text)
    (value : Option Text)
    (hload : loads (get_memory stored) = some (Json.obj m)) :
    edit_memory stored k value
      = some (set_memory (dumps (Json.obj (applyFieldEdit m k value)))) := by
  simp only [edit_memory, hload]

lemma memory_tool_updated (stored field : Text) (value : Option Text) (newMem : Text)
    (h : edit_memory stored field value = some newMem) :
    memory_tool stored field value = ("Memory updated successfully.", newMem) := by
  simp only [memory_tool, h]

/-- C5 (code bug): the `manage_memory` tool invoked with field
`protected_memory` and no value deletes the entire protected subtree: it
reports success and the stored memory becomes the empty JSON object,
although the specification reserves that subtree for host code
(`create_memory_tool` passes any field name to `edit_memory` unchecked). -/
theorem manage_memory_deletes_protected_memory :
    memory_tool (dumps (Json.obj [("protected_memory".data,
        Json.obj [(['k'], Json.str ['v'])])])) ("protected_memory".data) none
      = ("Memory updated successfully.", ['\x7b', '\x7d']) ∧
    loads ['\x7b', '\x7d'] = some (Json.obj []) := by
  have hedit : edit_memory (dumps (Json.obj [(("protected_memory".data),
      Json.obj [(['k'], Json.str ['v'])])])) ("protected_memory".data) none
      = some ['\x7b', '\x7d'] := by
    rw [edit_memory_obj_eq _ _ _ _ loads_protected_example]
    rw [show applyFieldEdit [(("protected_memory".data),
        Json.obj [(['k'], Json.str ['v'])])] ("protected_memory".data) none
        = ([] : List (Text × Json)) from by simp [applyFieldEdit, eraseKey]]
    rw [set_memory_dumps_obj [] (by simp [dumps, dumpsVal, MEMORY_LIMIT])]
    simp [dumps, dumpsVal]
  constructor
  · exact memory_tool_updated _ _ _ _ hedit
  · rw [show (['\x7b', '\x7d'] : Text) = dumps (Json.obj []) from by simp [dumps, dumpsVal]]
    exact loads_dumps _ (by simp [wfJson, distinctKeysB, wfMembers])

end OSAgent
